import Mathlib

/-!
Verification of the STL mesh decoder and terminal projector (package `model`,
file `model.go`).

The embedding is shallow and exact:
* Go byte slices and streams are `List ℕ` of byte values; Go strings are
  `List Char` (the source only manipulates ASCII bytes).
* Go `float32` arithmetic is embedded as exact rational arithmetic (`ℚ`).
  Where the source's IEEE behaviour is *not* exact-arithmetic behaviour
  (division by zero producing NaN or infinity, whose conversion to `int` is
  implementation-specific in Go) the embedding returns `none`, and each such
  spot is documented at the definition.  All concrete inputs used in
  counterexamples and witnesses involve only small dyadic values on which
  `float32` arithmetic is exact, so those evaluations transfer verbatim to
  the compiled program.
* A Go panic (out-of-range index, out-of-range slice bound, `make` with a
  negative length) is embedded as the `none` value of an `Option` result;
  an error return `err ≠ nil` is an explicit error value.
* `binary.Read` fills `float32` fields from little-endian bytes; the
  embedding keeps each such field as its raw 32-bit pattern (a natural
  number), since no claim depends on interpreting the bit patterns as reals.
-/

/-! ## Binary decoder (`CreateFromByteSlice`, `CreateFromBinarySTL`) -/

/-- One triangle as decoded from the 50-byte binary record.  Field values are
the raw little-endian 32-bit (respectively 16-bit) patterns read by
`binary.Read`; the IEEE interpretation of the `float32` patterns is not
needed by any claim and is left uninterpreted. -/
structure BinTriangle where
  Normal : ℕ × ℕ × ℕ
  Vertices : (ℕ × ℕ × ℕ) × (ℕ × ℕ × ℕ) × (ℕ × ℕ × ℕ)
  AttrByteCount : ℕ
deriving DecidableEq, Repr

/-- The decoded binary model: header bytes (null-trimmed), declared triangle
count, and triangle records. -/
structure BinModel where
  Header : List ℕ
  NumTriangles : ℕ
  Triangles : List BinTriangle
deriving DecidableEq, Repr

/-- Little-endian 32-bit read, `binary.LittleEndian.Uint32`. -/
def le32 (l : List ℕ) : ℕ :=
  l.getD 0 0 + 256 * (l.getD 1 0 + 256 * (l.getD 2 0 + 256 * l.getD 3 0))

/-- Little-endian 16-bit read, as used for the attribute byte count. -/
def le16 (l : List ℕ) : ℕ := l.getD 0 0 + 256 * l.getD 1 0

/-- Go `strings.Trim(s, "\x00")`: remove leading and trailing zero bytes. -/
def trimNulls (l : List ℕ) : List ℕ :=
  ((l.dropWhile (· = 0)).reverse.dropWhile (· = 0)).reverse

/-- Decode one 50-byte triangle record: 12 bytes normal, 36 bytes vertices,
2 bytes attribute count, all little-endian, no padding. -/
def parseRecord (c : List ℕ) : BinTriangle where
  Normal := (le32 (c.take 4), le32 ((c.drop 4).take 4), le32 ((c.drop 8).take 4))
  Vertices :=
    ((le32 ((c.drop 12).take 4), le32 ((c.drop 16).take 4), le32 ((c.drop 20).take 4)),
     (le32 ((c.drop 24).take 4), le32 ((c.drop 28).take 4), le32 ((c.drop 32).take 4)),
     (le32 ((c.drop 36).take 4), le32 ((c.drop 40).take 4), le32 ((c.drop 44).take 4)))
  AttrByteCount := le16 ((c.drop 48).take 2)

/-- Embedding of `CreateFromByteSlice`.  The source slices
`byteSlice[:80]` and `byteSlice[80:84]` without a length check, so a buffer
shorter than 84 bytes panics (`none`; the buffer is modeled with capacity
equal to its length).  With at least 84 bytes, `binary.Read` on the
remaining bytes fails with an error when fewer than `50*N` bytes remain,
else all `N` records are decoded. -/
def CreateFromByteSlice (byteSlice : List ℕ) : Option (Except Unit BinModel) :=
  if byteSlice.length < 80 then none
  else if byteSlice.length < 84 then none
  else
    let hdr := trimNulls (byteSlice.take 80)
    let n := le32 ((byteSlice.drop 80).take 4)
    let rest := byteSlice.drop 84
    if rest.length < 50 * n then some (Except.error ())
    else some (Except.ok
      ⟨hdr, n, (List.range n).map (fun i => parseRecord ((rest.drop (50 * i)).take 50))⟩)

/-- Embedding of `CreateFromBinarySTL`.  The stream is modeled by the list
of bytes it can still deliver.  `io.ReadFull` on the 84-byte header errors
out (EOF or unexpected EOF) when fewer than 84 bytes are available, and
`binary.Read` errors out when fewer than `50*N` further bytes are
available; no path panics. -/
def CreateFromBinarySTL (r : List ℕ) : Except Unit BinModel :=
  if r.length < 84 then Except.error ()
  else
    let hdr := trimNulls (r.take 80)
    let n := le32 ((r.drop 80).take 4)
    let rest := r.drop 84
    if rest.length < 50 * n then Except.error ()
    else Except.ok
      ⟨hdr, n, (List.range n).map (fun i => parseRecord ((rest.drop (50 * i)).take 50))⟩

/-- Declared triangle count of a binary buffer, bytes 80..83 little-endian. -/
def declaredTriangles (byteSlice : List ℕ) : ℕ := le32 ((byteSlice.drop 80).take 4)

/-! ## Geometry data model -/

/-- A three-component single-precision vector, embedded exactly in `ℚ`. -/
abbrev Vec3 := ℚ × ℚ × ℚ

/-- Component access by axis index 0, 1, 2, mirroring `v[k]` on a
`[3]float32`.  Indices other than 0, 1, 2 never occur in the source (the
axis-selection table only produces 0, 1, 2); the catch-all returns 0. -/
def Vec3.axis (v : Vec3) (k : ℕ) : ℚ :=
  match k with
  | 0 => v.1
  | 1 => v.2.1
  | 2 => v.2.2
  | _ + 3 => 0

/-- The in-memory triangle of the geometry pipeline. -/
structure Triangle where
  Normal : Vec3
  Vertices : Vec3 × Vec3 × Vec3
  AttrByteCount : ℕ
deriving DecidableEq, Repr

/-- The in-memory mesh of the geometry pipeline. -/
structure Model where
  Header : List Char
  NumTriangles : ℕ
  Triangles : List Triangle
deriving DecidableEq, Repr

/-- All vertices of all triangles of a mesh, in source iteration order
(triangles in order, and within each triangle vertices 0, 1, 2). -/
def Model.vertexList (m : Model) : List Vec3 :=
  m.Triangles.flatMap (fun t => [t.Vertices.1, t.Vertices.2.1, t.Vertices.2.2])

/-- The largest finite `float32` value, `math.MaxFloat32`, exactly. -/
def maxFloat32 : ℚ := (2 ^ 24 - 1) * 2 ^ 104

/-- One step of the min-scan in `getMinsMaxs`: the inner coordinate loop of
the source unrolled over the three components, each
`if v[k] < mins[k] then mins[k] = v[k]`. -/
def updateMins (mins : Vec3) (v : Vec3) : Vec3 :=
  ((if v.1 < mins.1 then v.1 else mins.1),
   (if v.2.1 < mins.2.1 then v.2.1 else mins.2.1),
   (if v.2.2 < mins.2.2 then v.2.2 else mins.2.2))

/-- One step of the max-scan in `getMinsMaxs`. -/
def updateMaxs (maxs : Vec3) (v : Vec3) : Vec3 :=
  ((if v.1 > maxs.1 then v.1 else maxs.1),
   (if v.2.1 > maxs.2.1 then v.2.1 else maxs.2.1),
   (if v.2.2 > maxs.2.2 then v.2.2 else maxs.2.2))

/-- Embedding of `getMinsMaxs`: a single pass over every vertex of every
triangle, updating per-axis minima and maxima, starting from
`math.MaxFloat32` minima and `-math.MaxFloat32` maxima. -/
def getMinsMaxs (m : Model) : Vec3 × Vec3 :=
  m.vertexList.foldl (fun p v => (updateMins p.1 v, updateMaxs p.2 v))
    ((maxFloat32, maxFloat32, maxFloat32), (-maxFloat32, -maxFloat32, -maxFloat32))

/-- Embedding of `getDimensions`: per-axis extents `maxs - mins`. -/
def getDimensions (m : Model) : Vec3 :=
  let mm := getMinsMaxs m
  (mm.2.1 - mm.1.1, mm.2.2.1 - mm.1.2.1, mm.2.2.2 - mm.1.2.2)

/-! ## Axis selection (`ProjectFrom`, `GetAxisForProjection`) -/

/-- The three viewing directions declared by the source. -/
inductive ProjectFrom
  | side
  | front
  | top
deriving DecidableEq, Repr

/-- Embedding of the `GetAxisForProjection` switch: returns
`(forX, forY, forValue)`. -/
def ProjectFrom.GetAxisForProjection : ProjectFrom → ℕ × ℕ × ℕ
  | .side => (2, 1, 0)
  | .front => (2, 0, 1)
  | .top => (1, 0, 2)

/-! ## ASCII renderer (`DrawMatrix`) -/

/-- The projection grid type, `[][]float32`. -/
abbrev Grid := List (List ℚ)

/-- Embedding of `DrawMatrix`: for each row and each cell, the source
multiplies the cell value by 4 and appends one of four glyphs to the
buffer according to the switch over the scaled value, then terminates the
row with a newline. -/
def DrawMatrix (matrix : Grid) : List Char :=
  matrix.foldl (fun buffer row =>
    (row.foldl (fun b v =>
      let adjVal := v * 4
      if adjVal > 3 then b ++ ['▓']
      else if adjVal > 1.5 then b ++ ['▒']
      else if adjVal > 0 then b ++ ['░']
      else b ++ [' ']) buffer) ++ ['\n']) []

/-! ## Projection engine (`ProjectModelVertices`) -/

/-- Go conversion `int(f)` of a finite floating value: truncation toward
zero. -/
def truncQ (q : ℚ) : ℤ := if 0 ≤ q then ⌊q⌋ else -⌊-q⌋

/-- The extent the source derives the scale from: `dimensions[projectToX]`
if it exceeds `dimensions[projectToY]`, else `dimensions[projectToY]`. -/
def chosenDim (dims : Vec3) (aX aY : ℕ) : ℚ :=
  if dims.axis aX > dims.axis aY then dims.axis aX else dims.axis aY

/-- The grid cell `((matrixSize - matrixX)/2, matrixY)` a vertex is written
to.  `adjusted = (v[axis] - mins[axis]) / scale` with `scale = d / S`; Go
integer division and the float-to-int conversions truncate toward zero.
For `S = 0` and `d > 0` the Go scale is `+Inf` and both adjusted
coordinates are exactly 0, which is what the `S = 0` branch returns (the
caller only evaluates this function when `d ≠ 0`). -/
def vertexCell (S : ℤ) (d : ℚ) (mins : Vec3) (aX aY : ℕ) (v : Vec3) : ℤ × ℤ :=
  let adjX : ℚ := if S = 0 then 0 else (v.axis aX - mins.axis aX) / (d / (S : ℚ))
  let adjY : ℚ := if S = 0 then 0 else (v.axis aY - mins.axis aY) / (d / (S : ℚ))
  (Int.tdiv (S - truncQ adjX) 2, truncQ adjY)

/-- The candidate depth value
`(v[projectToValue] - mins[projectToValue]) / dimensions[projectToValue]`.
When the depth extent is 0 the Go quotient is `0/0 = NaN`; a NaN candidate
fails the strict `>` comparison against any cell, so no write ever happens
with it, which the embedding renders as `none`. -/
def newDepth (dims mins : Vec3) (aV : ℕ) (v : Vec3) : Option ℚ :=
  if dims.axis aV = 0 then none
  else some ((v.axis aV - mins.axis aV) / dims.axis aV)

/-- The conditional write
`if newValue > matrix[r][c] then matrix[r][c] = newValue`.  The source
indexes `matrix[r][c]` unconditionally, so a row or column index outside
the grid is an out-of-range panic (`none`) whether or not the comparison
would succeed; a `none` candidate (NaN) leaves the cell unchanged but the
read still happens first. -/
def projWrite (g : Grid) (r c : ℤ) (nv : Option ℚ) : Option Grid :=
  if hr : 0 ≤ r ∧ r.toNat < g.length then
    let row := g.get ⟨r.toNat, hr.2⟩
    if hc : 0 ≤ c ∧ c.toNat < row.length then
      match nv with
      | none => some g
      | some q =>
        if q > row.get ⟨c.toNat, hc.2⟩ then some (g.set r.toNat (row.set c.toNat q))
        else some g
    else none
  else none

/-- Processing of a single vertex inside the double loop of
`ProjectModelVertices`.  When the scale-defining extent `d` is 0 (and a
vertex is being processed, so the mesh is non-empty and both display
extents are 0), the Go scale is `0/S = 0` (or `0/0 = NaN` for `S = 0`) and
the adjusted coordinate is `0/0 = NaN` or `x/0 = ±Inf`; converting such a
value with `int(...)` is implementation-specific in Go and the program's
subsequent index is out of any grid's range on the reference
implementation, so the embedding makes this case undefined (`none`). -/
def projStep (S : ℤ) (aX aY aV : ℕ) (mins dims : Vec3) (d : ℚ) (g : Grid) (v : Vec3) :
    Option Grid :=
  if d = 0 then none
  else
    let rc := vertexCell S d mins aX aY v
    projWrite g rc.1 rc.2 (newDepth dims mins aV v)

/-- The vertex loop: sequentially apply the per-vertex action, propagating
a panic. -/
def projLoop (f : Grid → Vec3 → Option Grid) : Grid → List Vec3 → Option Grid
  | g, [] => some g
  | g, v :: vs =>
    match f g v with
    | none => none
    | some g2 => projLoop f g2 vs

/-- Embedding of `ProjectModelVertices`.  The output matrix is created with
`(matrixSize/2)+1` rows (Go division truncates toward zero; a negative row
count makes `make` panic, `none`) of `matrixSize+1` columns each, then
every vertex of every triangle is processed in order. -/
def ProjectModelVertices (m : Model) (matrixSize : ℤ) (projectFrom : ProjectFrom) :
    Option Grid :=
  let axes := projectFrom.GetAxisForProjection
  let mm := getMinsMaxs m
  let dims := getDimensions m
  let d := chosenDim dims axes.1 axes.2.1
  let rows := Int.tdiv matrixSize 2 + 1
  if rows < 0 then none
  else
    let g0 : Grid := List.replicate rows.toNat (List.replicate (matrixSize + 1).toNat 0)
    projLoop (projStep matrixSize axes.1 axes.2.1 axes.2.2 mm.1 dims d) g0 m.vertexList

/-- Cell read with the defaults used throughout the statements: row `i`,
column `j`, 0 outside the grid. -/
def cellD (g : Grid) (i j : ℕ) : ℚ := (g.getD i []).getD j 0

/-- Whether a computed cell lies inside the grid allocated for resolution
`S`, namely `(matrixSize/2)+1` rows of `matrixSize+1` columns. -/
def cellInBounds (S : ℤ) (rc : ℤ × ℤ) : Prop :=
  0 ≤ rc.1 ∧ rc.1 < Int.tdiv S 2 + 1 ∧ 0 ≤ rc.2 ∧ rc.2 < S + 1

instance (S : ℤ) (rc : ℤ × ℤ) : Decidable (cellInBounds S rc) := by
  unfold cellInBounds; infer_instance

/-- The normalized depths of exactly those vertices that the projection
maps to cell `(i, j)`, in processing order: row `(S - matrixX)/2`, column
`matrixY`, value `(v[depth] - depthMin)/depthExtent`.  When the depth
extent is 0 every candidate is NaN and nothing is ever written, so the
list is empty. -/
def depthsAt (m : Model) (S : ℤ) (p : ProjectFrom) (i j : ℕ) : List ℚ :=
  let axes := p.GetAxisForProjection
  let mm := getMinsMaxs m
  let dims := getDimensions m
  let d := chosenDim dims axes.1 axes.2.1
  if dims.axis axes.2.2 = 0 then []
  else m.vertexList.filterMap (fun v =>
    if vertexCell S d mm.1 axes.1 axes.2.1 v = ((i : ℤ), (j : ℤ))
    then some ((v.axis axes.2.2 - mm.1.axis axes.2.2) / dims.axis axes.2.2)
    else none)

/-! ## ASCII decoder (`CreateFromASCIISTL`) -/

/-- Embedding of `bufio.Reader.ReadString(newline)` on a complete in-memory
text: returns the first line including its terminating newline together
with the remaining text, or `none` when no newline remains (Go then
returns the partial data together with `io.EOF`; every caller in the
source checks the error first and abandons the partial data). -/
def readLine : List Char → Option (List Char × List Char)
  | [] => none
  | c :: cs =>
    if c = '\n' then some ([c], cs)
    else
      match readLine cs with
      | none => none
      | some (l, r) => some (c :: l, r)

/-- Whether a character belongs to the cutset of
`strings.Trim(line, " \t\n\r")`. -/
def isCut (c : Char) : Bool := c = ' ' || c = '\t' || c = '\n' || c = '\r'

/-- Go `strings.Trim` with the cutset above: drop such characters from
both ends. -/
def goTrim (l : List Char) : List Char :=
  ((l.dropWhile isCut).reverse.dropWhile isCut).reverse

/-- Whether a character belongs to the cutset of the header trim,
`strings.Trim(name, " \n")`. -/
def isCutHeader (c : Char) : Bool := c = ' ' || c = '\n'

/-- Go `strings.Trim(s, " \n")` used on the solid name. -/
def goTrimHeader (l : List Char) : List Char :=
  ((l.dropWhile isCutHeader).reverse.dropWhile isCutHeader).reverse

/-- Go `strings.Split` for the two separators the source uses: the empty
separator splits a string into its individual characters (so the empty
string yields the empty slice), and a one-character separator splits on
each occurrence of that character (so the empty string yields one empty
field). -/
def goSplit (sep : List Char) (s : List Char) : List (List Char) :=
  match sep with
  | [] => s.map (fun c => [c])
  | c :: _ => s.splitOn c

/-- Embedding of the `readAndTreatLine` closure: read one line, trim it,
require at least `mustStartWith.length` characters, require the literal
`mustStartWith` at the start, split the remainder by the separator and
require exactly the expected number of fields.  All failure modes (read
error, short line, wrong literal, wrong field count) are collapsed to
`none`, exactly as every caller treats any returned error identically;
on success the fields and the unconsumed remainder of the text are
returned. -/
def readAndTreatLine (mustStartWith : List Char) (sep : List Char)
    (expectedPartsLength : ℕ) (s : List Char) : Option (List (List Char) × List Char) :=
  match readLine s with
  | none => none
  | some (line, rest) =>
    let t := goTrim line
    if t.length < mustStartWith.length then none
    else if t.take mustStartWith.length ≠ mustStartWith then none
    else
      let lineParts := goSplit sep (t.drop mustStartWith.length)
      if lineParts.length = expectedPartsLength then some (lineParts, rest)
      else none

/-- The literal of the facet-normal line. -/
def facetNormalLit : List Char := "facet normal ".toList

/-- The literal prepended to the solid name in the synthesized header. -/
def headerLit : List Char := "Imported from ASCII STL by stl2ascii - ".toList

/-- Parse three whitespace-split fields with `strconv.ParseFloat(_, 32)`,
failing at the first bad field.  The float parser itself is Go standard
library code, external to this repository, so it is a parameter `pf`
throughout; `none` is a parse error. -/
def parse3 (pf : List Char → Option ℚ) (ps : List (List Char)) : Option Vec3 :=
  match ps with
  | [a, b, c] =>
    match pf a with
    | none => none
    | some x =>
      match pf b with
      | none => none
      | some y =>
        match pf c with
        | none => none
        | some z => some (x, y, z)
  | _ => none

/-- The mandatory body of one facet once its `facet normal ` line matched:
parse the three normal fields, then `outer loop`, three `vertex ` lines
each with three float fields, `endloop` and `endfacet`.  Any failure is
fatal to the whole decode (`none`); on success the completed triangle
(attribute count 0, the Go zero value) and the remaining text are
returned. -/
def readTriangleBody (pf : List Char → Option ℚ) (normalParts : List (List Char))
    (s : List Char) : Option (Triangle × List Char) :=
  match parse3 pf normalParts with
  | none => none
  | some nrm =>
    match readAndTreatLine ("outer loop".toList) [] 0 s with
    | none => none
    | some (_, s2) =>
      match readAndTreatLine ("vertex ".toList) [' '] 3 s2 with
      | none => none
      | some (vp1, s3) =>
        match parse3 pf vp1 with
        | none => none
        | some v1 =>
          match readAndTreatLine ("vertex ".toList) [' '] 3 s3 with
          | none => none
          | some (vp2, s4) =>
            match parse3 pf vp2 with
            | none => none
            | some v2 =>
              match readAndTreatLine ("vertex ".toList) [' '] 3 s4 with
              | none => none
              | some (vp3, s5) =>
                match parse3 pf vp3 with
                | none => none
                | some v3 =>
                  match readAndTreatLine ("endloop".toList) [] 0 s5 with
                  | none => none
                  | some (_, s6) =>
                    match readAndTreatLine ("endfacet".toList) [] 0 s6 with
                    | none => none
                    | some (_, s7) => some (⟨nrm, (v1, v2, v3), 0⟩, s7)

/-- The decoder loop, fuel-indexed so that it is structurally recursive;
every successful `facet normal ` read consumes at least one character, so
`s.length + 1` fuel always suffices and the fuel-exhaustion branch is
unreachable (`asciiLoopF_fuel_irrelevant` below).  A failed `facet
normal ` match ends the loop keeping the accumulated triangles with a nil
error; a failure anywhere inside the facet body returns the accumulated
triangles together with an error (`some ()`). -/
def asciiLoopF (pf : List Char → Option ℚ) :
    ℕ → List Char → List Triangle → ℕ → List Triangle × ℕ × Option Unit
  | 0, _, acc, cnt => (acc, cnt, some ())
  | fuel + 1, s, acc, cnt =>
    match readAndTreatLine facetNormalLit [' '] 3 s with
    | none => (acc, cnt, none)
    | some (parts, s1) =>
      match readTriangleBody pf parts s1 with
      | none => (acc, cnt, some ())
      | some (tri, s2) => asciiLoopF pf fuel s2 (acc ++ [tri]) (cnt + 1)

/-- The decoder loop of `CreateFromASCIISTL` at its always-sufficient
fuel. -/
def asciiLoop (pf : List Char → Option ℚ) (s : List Char) (acc : List Triangle)
    (cnt : ℕ) : List Triangle × ℕ × Option Unit :=
  asciiLoopF pf (s.length + 1) s acc cnt

/-- Embedding of `CreateFromASCIISTL`.  The first line is read; a read
error fails the decode with the zero-value model.  The source then slices
`Header[5:]` without any check of the `solid ` literal or of the line
length, so a first line shorter than 5 bytes panics (`none`) and any
other first line is accepted; everything after its first five characters,
trimmed of spaces and newlines, is embedded into the synthesized header.
Then the triangle loop runs on the remaining text. -/
def CreateFromASCIISTL (pf : List Char → Option ℚ) (s : List Char) :
    Option (Model × Option Unit) :=
  match readLine s with
  | none => some (⟨[], 0, []⟩, some ())
  | some (line, rest) =>
    if line.length < 5 then none
    else
      let hdr := headerLit ++ goTrimHeader (line.drop 5)
      let r := asciiLoop pf rest [] 0
      some (⟨hdr, r.2.1, r.1⟩, r.2.2)

/-- The terminating runs of the decoder loop: either the very next
`facet normal ` match fails (the loop stops with a nil error), or a full
facet body is read and the loop continues on the remainder.  This
predicate characterizes exactly the inputs on which the loop ends without
an error. -/
inductive EndsAtFacetMismatch (pf : List Char → Option ℚ) : List Char → Prop
  | stop (s : List Char) :
      readAndTreatLine facetNormalLit [' '] 3 s = none → EndsAtFacetMismatch pf s
  | step (s : List Char) (parts : List (List Char)) (s1 : List Char) (tri : Triangle)
      (s2 : List Char) :
      readAndTreatLine facetNormalLit [' '] 3 s = some (parts, s1) →
      readTriangleBody pf parts s1 = some (tri, s2) →
      EndsAtFacetMismatch pf s2 → EndsAtFacetMismatch pf s


/-! ## Helper lemmas -/

theorem readLine_rest_length {s line rest : List Char}
    (h : readLine s = some (line, rest)) : rest.length < s.length := by
  induction s generalizing line rest with
  | nil => simp [readLine] at h
  | cons c cs ih =>
    unfold readLine at h
    by_cases hc : c = '\n'
    · rw [if_pos hc] at h
      simp only [Option.some.injEq, Prod.mk.injEq] at h
      obtain ⟨-, rfl⟩ := h
      simp
    · rw [if_neg hc] at h
      cases hr : readLine cs with
      | none => rw [hr] at h; exact absurd h (by simp)
      | some lr =>
        obtain ⟨l, r⟩ := lr
        rw [hr] at h
        simp only [Option.some.injEq, Prod.mk.injEq] at h
        obtain ⟨-, rfl⟩ := h
        exact Nat.lt_succ_of_lt (ih hr)

theorem readAndTreatLine_rest_length {pre sep : List Char} {n : ℕ}
    {s : List Char} {ps : List (List Char)} {rest : List Char}
    (h : readAndTreatLine pre sep n s = some (ps, rest)) :
    rest.length < s.length := by
  unfold readAndTreatLine at h
  cases hr : readLine s with
  | none => rw [hr] at h; exact absurd h (by simp)
  | some lr =>
    obtain ⟨line, r⟩ := lr
    rw [hr] at h
    simp only at h
    have hrr : r = rest := by
      by_cases h1 : (goTrim line).length < pre.length
      · rw [if_pos h1] at h; exact absurd h (by simp)
      · rw [if_neg h1] at h
        by_cases h2 : List.take pre.length (goTrim line) ≠ pre
        · rw [if_pos h2] at h; exact absurd h (by simp)
        · rw [if_neg h2] at h
          by_cases h3 :
              (goSplit sep (List.drop pre.length (goTrim line))).length = n
          · rw [if_pos h3] at h
            exact (Prod.mk.injEq .. ▸ Option.some.inj h).2
          · rw [if_neg h3] at h; exact absurd h (by simp)
    exact hrr ▸ readLine_rest_length hr

theorem readTriangleBody_rest_lt {pf : List Char → Option ℚ}
    {parts : List (List Char)} {s : List Char} {t : Triangle} {s7 : List Char}
    (h : readTriangleBody pf parts s = some (t, s7)) : s7.length < s.length := by
  unfold readTriangleBody at h
  cases h0 : parse3 pf parts with
  | none => rw [h0] at h; exact absurd h (by simp)
  | some nrm =>
    rw [h0] at h; simp only at h
    cases h1 : readAndTreatLine ("outer loop".toList) [] 0 s with
    | none => rw [h1] at h; exact absurd h (by simp)
    | some pr1 =>
      obtain ⟨q1, s2⟩ := pr1
      rw [h1] at h; simp only at h
      cases h2 : readAndTreatLine ("vertex ".toList) [' '] 3 s2 with
      | none => rw [h2] at h; exact absurd h (by simp)
      | some pr2 =>
        obtain ⟨vp1, s3⟩ := pr2
        rw [h2] at h; simp only at h
        cases hp1 : parse3 pf vp1 with
        | none => rw [hp1] at h; exact absurd h (by simp)
        | some v1 =>
          rw [hp1] at h; simp only at h
          cases h3 : readAndTreatLine ("vertex ".toList) [' '] 3 s3 with
          | none => rw [h3] at h; exact absurd h (by simp)
          | some pr3 =>
            obtain ⟨vp2, s4⟩ := pr3
            rw [h3] at h; simp only at h
            cases hp2 : parse3 pf vp2 with
            | none => rw [hp2] at h; exact absurd h (by simp)
            | some v2 =>
              rw [hp2] at h; simp only at h
              cases h4 : readAndTreatLine ("vertex ".toList) [' '] 3 s4 with
              | none => rw [h4] at h; exact absurd h (by simp)
              | some pr4 =>
                obtain ⟨vp3, s5⟩ := pr4
                rw [h4] at h; simp only at h
                cases hp3 : parse3 pf vp3 with
                | none => rw [hp3] at h; exact absurd h (by simp)
                | some v3 =>
                  rw [hp3] at h; simp only at h
                  cases h5 : readAndTreatLine ("endloop".toList) [] 0 s5 with
                  | none => rw [h5] at h; exact absurd h (by simp)
                  | some pr5 =>
                    obtain ⟨q5, s6⟩ := pr5
                    rw [h5] at h; simp only at h
                    cases h6 : readAndTreatLine ("endfacet".toList) [] 0 s6 with
                    | none => rw [h6] at h; exact absurd h (by simp)
                    | some pr6 =>
                      obtain ⟨q6, s7x⟩ := pr6
                      rw [h6] at h; simp only at h
                      have hs7 : s7x = s7 :=
                        (Prod.mk.injEq .. ▸ Option.some.inj h).2
                      have l1 := readAndTreatLine_rest_length h1
                      have l2 := readAndTreatLine_rest_length h2
                      have l3 := readAndTreatLine_rest_length h3
                      have l4 := readAndTreatLine_rest_length h4
                      have l5 := readAndTreatLine_rest_length h5
                      have l6 := readAndTreatLine_rest_length h6
                      subst hs7
                      omega

theorem asciiLoopF_err_iff (pf : List Char → Option ℚ) :
    ∀ (fuel : ℕ) (s : List Char) (acc : List Triangle) (cnt : ℕ),
      s.length < fuel →
      ((asciiLoopF pf fuel s acc cnt).2.2 = none ↔ EndsAtFacetMismatch pf s) := by
  intro fuel
  induction fuel with
  | zero => intro s acc cnt hlen; exact absurd hlen (Nat.not_lt_zero _)
  | succ n ih =>
    intro s acc cnt hlen
    cases hf : readAndTreatLine facetNormalLit [' '] 3 s with
    | none =>
      simp only [asciiLoopF, hf]
      exact iff_of_true trivial (EndsAtFacetMismatch.stop s hf)
    | some pr =>
      obtain ⟨parts, s1⟩ := pr
      cases hb : readTriangleBody pf parts s1 with
      | none =>
        simp only [asciiLoopF, hf, hb]
        refine iff_of_false (by simp) ?_
        intro hE
        cases hE with
        | stop _ h2 => rw [hf] at h2; exact absurd h2 (by simp)
        | step _ p2 s12 t2 s22 h1 h2 h3 =>
          rw [hf] at h1
          obtain ⟨hp, hs⟩ := Prod.mk.injEq .. ▸ Option.some.inj h1
          subst hp; subst hs
          rw [hb] at h2
          exact absurd h2 (by simp)
      | some pr2 =>
        obtain ⟨tri, s2⟩ := pr2
        have hs1 : s1.length < s.length := readAndTreatLine_rest_length hf
        have hs2 : s2.length < s1.length := readTriangleBody_rest_lt hb
        simp only [asciiLoopF, hf, hb]
        rw [ih s2 (acc ++ [tri]) (cnt + 1) (by omega)]
        constructor
        · intro hE; exact EndsAtFacetMismatch.step s parts s1 tri s2 hf hb hE
        · intro hE
          cases hE with
          | stop _ h2 => rw [hf] at h2; exact absurd h2 (by simp)
          | step _ p2 s12 t2 s22 h1 h2 h3 =>
            rw [hf] at h1
            obtain ⟨hp, hs⟩ := Prod.mk.injEq .. ▸ Option.some.inj h1
            subst hp; subst hs
            rw [hb] at h2
            obtain ⟨ht, hs⟩ := Prod.mk.injEq .. ▸ Option.some.inj h2
            subst hs
            exact h3

theorem asciiLoop_break (pf : List Char → Option ℚ) (s : List Char)
    (acc : List Triangle) (cnt : ℕ)
    (hf : readAndTreatLine facetNormalLit [' '] 3 s = none) :
    asciiLoop pf s acc cnt = (acc, cnt, none) := by
  unfold asciiLoop
  simp only [asciiLoopF, hf]

theorem asciiLoop_err_iff (pf : List Char → Option ℚ) (s : List Char)
    (acc : List Triangle) (cnt : ℕ) :
    ((asciiLoop pf s acc cnt).2.2 = none ↔ EndsAtFacetMismatch pf s) :=
  asciiLoopF_err_iff pf (s.length + 1) s acc cnt (Nat.lt_succ_self _)

/-! ## Claim C5 -/

/-- C5: `GetAxisForProjection` implements exactly the fixed axis-selection
table: the side view returns X-axis 2 (z), Y-axis 1 (y), depth axis 0 (x);
the front view returns X-axis 2 (z), Y-axis 0 (x), depth axis 1 (y); the
top view returns X-axis 1 (y), Y-axis 0 (x), depth axis 2 (z). -/
theorem getAxisForProjection_table :
    ProjectFrom.side.GetAxisForProjection = (2, 1, 0) ∧
    ProjectFrom.front.GetAxisForProjection = (2, 0, 1) ∧
    ProjectFrom.top.GetAxisForProjection = (1, 0, 2) :=
  ⟨rfl, rfl, rfl⟩

/-! ## Claim C1 -/

/-- C1 counterexample: on the empty input the streaming decoder fails with
an error, but the in-memory buffer decoder panics (out-of-range slice
bound at `byteSlice[:80]`) instead of failing with an error, so the two
entry points do not behave identically on inputs shorter than 84 bytes
and the buffer decoder crashes rather than fails. -/
theorem createFromByteSlice_empty_panics :
    CreateFromByteSlice [] = none ∧ CreateFromBinarySTL [] = Except.error () :=
  ⟨rfl, rfl⟩

/-- C1 amended: the streaming decoder fails with an error on every input
shorter than 84 bytes; the buffer decoder instead panics on every buffer
shorter than 84 bytes, and fails with an error (without crashing) exactly
as the claim states only when the buffer holds at least the 84 header
bytes but fewer than `84 + 50*N` bytes for the declared count `N` (the
streaming decoder fails with an error there as well). -/
theorem binary_truncation_behavior (bs : List ℕ) :
    (bs.length < 84 → CreateFromBinarySTL bs = Except.error ()) ∧
    (bs.length < 84 → CreateFromByteSlice bs = none) ∧
    (84 ≤ bs.length → bs.length < 84 + 50 * declaredTriangles bs →
      CreateFromByteSlice bs = some (Except.error ())) ∧
    (84 ≤ bs.length → bs.length < 84 + 50 * declaredTriangles bs →
      CreateFromBinarySTL bs = Except.error ()) := by
  refine ⟨fun h => ?_, fun h => ?_, fun h1 h2 => ?_, fun h1 h2 => ?_⟩
  · simp [CreateFromBinarySTL, h]
  · unfold CreateFromByteSlice
    rcases Nat.lt_or_ge bs.length 80 with h80 | h80
    · rw [if_pos h80]
    · rw [if_neg (Nat.not_lt.mpr h80), if_pos h]
  · unfold declaredTriangles at h2
    have hd : (bs.drop 84).length = bs.length - 84 := List.length_drop ..
    have h80 : ¬ bs.length < 80 := by omega
    have h84 : ¬ bs.length < 84 := by omega
    have hlt : (bs.drop 84).length < 50 * le32 ((bs.drop 80).take 4) := by omega
    simp [CreateFromByteSlice, h80, h84, hlt]
    omega
  · unfold declaredTriangles at h2
    have hd : (bs.drop 84).length = bs.length - 84 := List.length_drop ..
    have h84 : ¬ bs.length < 84 := by omega
    have hlt : (bs.drop 84).length < 50 * le32 ((bs.drop 80).take 4) := by omega
    simp [CreateFromBinarySTL, h84, hlt]
    omega

/-- C1 witness: concrete instances of the amended statement, an 83-byte
buffer (panic for the buffer decoder, error for the stream decoder) and an
84-byte buffer declaring one triangle with no record bytes (error for
both). -/
theorem binary_truncation_behavior_witness :
    CreateFromBinarySTL (List.replicate 83 0) = Except.error () ∧
    CreateFromByteSlice (List.replicate 83 0) = none ∧
    CreateFromByteSlice (List.replicate 80 0 ++ [1, 0, 0, 0]) =
      some (Except.error ()) ∧
    CreateFromBinarySTL (List.replicate 80 0 ++ [1, 0, 0, 0]) = Except.error () :=
  ⟨(binary_truncation_behavior _).1 (by decide),
   (binary_truncation_behavior _).2.1 (by decide),
   (binary_truncation_behavior _).2.2.1 (by decide) (by decide),
   (binary_truncation_behavior _).2.2.2 (by decide) (by decide)⟩

/-! ## Claim C3 -/

/-- C3 counterexample: the input whose first line is `hello world` does not
begin with the literal `solid `, yet the decode does not fail: it returns
a mesh with a nil error, with the remainder of the first line after
position 5 embedded in the header.  The claimed immediate failure for a
first line lacking the `solid ` literal does not exist in the code. -/
theorem ascii_nonsolid_first_line_accepted :
    ("hello world\n".toList.take 6 ≠ "solid ".toList) ∧
    CreateFromASCIISTL (fun _ => none) ("hello world\n".toList) =
      some (⟨headerLit ++ "world".toList, 0, []⟩, none) := by
  constructor
  · decide
  · rfl

/-- C3 amended: the ASCII decoder never checks the first line against the
literal `solid `.  If the first line cannot be read the decode fails with
an error; if the first line is shorter than 5 bytes the decoder panics
(slice `Header[5:]` out of range); otherwise, whatever the first line
contains, the decode proceeds and the bytes after position 5, trimmed of
spaces and newlines, become the embedded solid name. -/
theorem ascii_first_line_behavior (pf : List Char → Option ℚ) (s : List Char) :
    (readLine s = none → CreateFromASCIISTL pf s = some (⟨[], 0, []⟩, some ())) ∧
    (∀ line rest, readLine s = some (line, rest) → line.length < 5 →
      CreateFromASCIISTL pf s = none) ∧
    (∀ line rest, readLine s = some (line, rest) → 5 ≤ line.length →
      ∃ tris cnt err, CreateFromASCIISTL pf s =
        some (⟨headerLit ++ goTrimHeader (line.drop 5), cnt, tris⟩, err)) := by
  refine ⟨fun h => ?_, fun line rest h h5 => ?_, fun line rest h h5 => ?_⟩
  · simp [CreateFromASCIISTL, h]
  · simp [CreateFromASCIISTL, h, h5]
  · refine ⟨(asciiLoop pf rest [] 0).1, (asciiLoop pf rest [] 0).2.1,
      (asciiLoop pf rest [] 0).2.2, ?_⟩
    simp [CreateFromASCIISTL, h, Nat.not_lt.mpr h5]

/-- C3 witness: the three behaviours of the amended statement at concrete
inputs: an input with no newline (error), a 3-byte first line (panic), and
a well-formed `solid b` first line (header synthesis). -/
theorem ascii_first_line_behavior_witness :
    CreateFromASCIISTL (fun _ => none) ("abc".toList) = some (⟨[], 0, []⟩, some ()) ∧
    CreateFromASCIISTL (fun _ => none) ("ab\n".toList) = none ∧
    ∃ tris cnt err, CreateFromASCIISTL (fun _ => none) ("solid b\n".toList) =
      some (⟨headerLit ++ goTrimHeader ("solid b\n".toList.drop 5), cnt, tris⟩, err) :=
  ⟨(ascii_first_line_behavior _ _).1 (by decide),
   (ascii_first_line_behavior _ _).2.1 ("ab\n".toList) [] (by decide) (by decide),
   (ascii_first_line_behavior _ _).2.2 ("solid b\n".toList) [] (by decide) (by decide)⟩

/-! ## Claim C4 -/

/-- C4: a failure to match a `facet normal ` line (wrong literal, short
line, end of stream, or an `endsolid` line, none of which is
distinguished) ends the decoder loop with the triangles accumulated so far
and a nil error, and this loop exit is the decoder's sole non-error
termination: the decode returns a nil error exactly when the first line
was read (with the 5-byte slice in range) and the subsequent text is a
sequence of complete facet bodies followed by a failed `facet normal `
match. -/
theorem ascii_facet_mismatch_sole_nonerror_exit (pf : List Char → Option ℚ) :
    (∀ s acc cnt, readAndTreatLine facetNormalLit [' '] 3 s = none →
      asciiLoop pf s acc cnt = (acc, cnt, none)) ∧
    (∀ s : List Char, (∃ m, CreateFromASCIISTL pf s = some (m, none)) ↔
      ∃ line rest, readLine s = some (line, rest) ∧ 5 ≤ line.length ∧
        EndsAtFacetMismatch pf rest) := by
  constructor
  · exact fun s acc cnt hf => asciiLoop_break pf s acc cnt hf
  · intro s
    unfold CreateFromASCIISTL
    cases hr : readLine s with
    | none =>
      refine iff_of_false ?_ ?_
      · rintro ⟨m, hm⟩
        simp at hm
      · rintro ⟨line, rest, hlr, -, -⟩
        exact absurd hlr (by simp)
    | some lr =>
      obtain ⟨line, rest⟩ := lr
      dsimp only
      by_cases h5 : line.length < 5
      · rw [if_pos h5]
        refine iff_of_false ?_ ?_
        · rintro ⟨m, hm⟩
          exact absurd hm (by simp)
        · rintro ⟨l2, r2, hlr, h52, -⟩
          obtain ⟨hl, -⟩ := Prod.mk.injEq .. ▸ Option.some.inj hlr
          subst hl
          omega
      · rw [if_neg h5]
        constructor
        · rintro ⟨m, hm⟩
          obtain ⟨-, herr⟩ := Prod.mk.injEq .. ▸ Option.some.inj hm
          exact ⟨line, rest, rfl, Nat.le_of_not_lt h5,
            (asciiLoop_err_iff pf rest [] 0).mp herr⟩
        · rintro ⟨l2, r2, hlr, h52, hE⟩
          obtain ⟨hl, hrr⟩ := Prod.mk.injEq .. ▸ Option.some.inj hlr
          subst hl; subst hrr
          exact ⟨⟨headerLit ++ goTrimHeader (line.drop 5),
              (asciiLoop pf rest [] 0).2.1, (asciiLoop pf rest [] 0).1⟩,
            by rw [(asciiLoop_err_iff pf rest [] 0).mpr hE]⟩

/-- C4 witness: the loop stops with a nil error and no triangle on a
stream holding only `endsolid t`, and the decode of `solid a` followed by
end of input returns a mesh with a nil error. -/
theorem ascii_facet_mismatch_sole_nonerror_exit_witness :
    asciiLoop (fun _ => none) ("endsolid t\n".toList) [] 0 = ([], 0, none) ∧
    ∃ m, CreateFromASCIISTL (fun _ => none) ("solid a\n".toList) = some (m, none) :=
  ⟨(ascii_facet_mismatch_sole_nonerror_exit _).1 _ [] 0 (by decide),
   ((ascii_facet_mismatch_sole_nonerror_exit _).2 _).mpr
     ⟨"solid a\n".toList, [], by decide, by decide,
      EndsAtFacetMismatch.stop _ (by decide)⟩⟩

theorem drawMatrix_row_foldl (row : List ℚ) (acc : List Char) :
    row.foldl (fun b v =>
      let adjVal := v * 4
      if adjVal > 3 then b ++ ['▓']
      else if adjVal > 1.5 then b ++ ['▒']
      else if adjVal > 0 then b ++ ['░']
      else b ++ [' ']) acc =
    acc ++ row.map (fun v =>
      if v * 4 > 3 then '▓' else if v * 4 > 1.5 then '▒'
      else if v * 4 > 0 then '░' else ' ') := by
  induction row generalizing acc with
  | nil => simp
  | cons v l ih =>
    simp only [List.foldl_cons, List.map_cons]
    rw [ih]
    have hstep : (let adjVal := v * 4
        if adjVal > 3 then acc ++ ['▓']
        else if adjVal > 1.5 then acc ++ ['▒']
        else if adjVal > 0 then acc ++ ['░']
        else acc ++ [' ']) =
        acc ++ [if v * 4 > 3 then '▓' else if v * 4 > 1.5 then '▒'
          else if v * 4 > 0 then '░' else ' '] := by
      dsimp only
      split_ifs <;> rfl
    rw [hstep]
    simp

theorem drawMatrix_foldl (m : Grid) (acc : List Char) :
    m.foldl (fun buffer row =>
      (row.foldl (fun b v =>
        let adjVal := v * 4
        if adjVal > 3 then b ++ ['▓']
        else if adjVal > 1.5 then b ++ ['▒']
        else if adjVal > 0 then b ++ ['░']
        else b ++ [' ']) buffer) ++ ['\n']) acc =
    acc ++ (m.map (fun row => row.map (fun v =>
      if v * 4 > 3 then '▓' else if v * 4 > 1.5 then '▒'
      else if v * 4 > 0 then '░' else ' ') ++ ['\n'])).flatten := by
  induction m generalizing acc with
  | nil => simp
  | cons row rows ih =>
    simp only [List.foldl_cons, List.map_cons, List.flatten_cons]
    rw [drawMatrix_row_foldl, ih]
    simp

/-! ## Claim C7 -/

/-- C7: `DrawMatrix` renders one newline-terminated line per grid row with
one glyph per column, each cell value `v` rendered by the exact threshold
table on `v*4` (heavy shade above 3, medium shade above 1.5, light shade
above 0, space otherwise); consequently a grid of all-zero values renders
as all spaces with row terminators and no shaded glyph. -/
theorem drawMatrix_threshold_table (g : Grid) :
    DrawMatrix g = (g.map (fun row => row.map (fun v =>
        if v * 4 > 3 then '▓' else if v * 4 > 1.5 then '▒'
        else if v * 4 > 0 then '░' else ' ') ++ ['\n'])).flatten ∧
    DrawMatrix (g.map (List.map (fun _ => (0 : ℚ)))) =
      (g.map (fun row => row.map (fun _ => ' ') ++ ['\n'])).flatten := by
  constructor
  · rw [DrawMatrix, drawMatrix_foldl]
    simp
  · rw [DrawMatrix, drawMatrix_foldl]
    simp only [List.nil_append, List.map_map]
    congr 1
    apply List.map_congr_left
    intro row hrow
    simp only [Function.comp_def, List.map_map]
    congr 1
    apply List.map_congr_left
    intro v hv
    norm_num

theorem vertexList_ne_nil {m : Model} (h : m.Triangles ≠ []) :
    m.vertexList ≠ [] := by
  cases ht : m.Triangles with
  | nil => exact absurd ht h
  | cons t ts => simp [Model.vertexList, ht]

theorem ite_lt_eq_min (a b : ℚ) : (if b < a then b else a) = min a b := by
  rcases le_total a b with h | h
  · rw [if_neg (not_lt.mpr h), min_eq_left h]
  · rcases eq_or_lt_of_le h with h2 | h2
    · simp [h2.symm]
    · rw [if_pos h2, min_eq_right h]

theorem ite_gt_eq_max (a b : ℚ) : (if b > a then b else a) = max a b := by
  rcases le_total b a with h | h
  · rw [if_neg (not_lt.mpr h), max_eq_left h]
  · rcases eq_or_lt_of_le h with h2 | h2
    · simp [h2]
    · rw [if_pos h2, max_eq_right h]

theorem updateMins_axis (mns v : Vec3) (k : ℕ) :
    (updateMins mns v).axis k = min (mns.axis k) (v.axis k) := by
  rcases k with _ | _ | _ | k <;>
    simp [Vec3.axis, updateMins, ite_lt_eq_min]

theorem updateMaxs_axis (mxs v : Vec3) (k : ℕ) :
    (updateMaxs mxs v).axis k = max (mxs.axis k) (v.axis k) := by
  rcases k with _ | _ | _ | k <;>
    simp [Vec3.axis, updateMaxs, ite_gt_eq_max]

theorem foldl_minmax_split (l : List Vec3) (a b : Vec3) :
    l.foldl (fun p v => (updateMins p.1 v, updateMaxs p.2 v)) (a, b) =
      (l.foldl updateMins a, l.foldl updateMaxs b) := by
  induction l generalizing a b with
  | nil => rfl
  | cons v vs ih => simp only [List.foldl_cons]; exact ih ..

theorem foldl_updateMins_axis (l : List Vec3) (init : Vec3) (k : ℕ) :
    (l.foldl updateMins init).axis k =
      (l.map (fun v => Vec3.axis v k)).foldl min (init.axis k) := by
  induction l generalizing init with
  | nil => rfl
  | cons v vs ih =>
    simp only [List.foldl_cons, List.map_cons]
    rw [ih, updateMins_axis]

theorem foldl_updateMaxs_axis (l : List Vec3) (init : Vec3) (k : ℕ) :
    (l.foldl updateMaxs init).axis k =
      (l.map (fun v => Vec3.axis v k)).foldl max (init.axis k) := by
  induction l generalizing init with
  | nil => rfl
  | cons v vs ih =>
    simp only [List.foldl_cons, List.map_cons]
    rw [ih, updateMaxs_axis]

theorem foldl_min_le_init (l : List ℚ) (a : ℚ) : l.foldl min a ≤ a := by
  induction l generalizing a with
  | nil => exact le_refl a
  | cons x xs ih => exact le_trans (ih (min a x)) (min_le_left a x)

theorem foldl_min_le_mem (l : List ℚ) (a : ℚ) {x : ℚ} (hx : x ∈ l) :
    l.foldl min a ≤ x := by
  induction l generalizing a with
  | nil => exact absurd hx (List.not_mem_nil x)
  | cons y ys ih =>
    rcases List.mem_cons.mp hx with rfl | hx2
    · exact le_trans (foldl_min_le_init ys (min a x)) (min_le_right a x)
    · exact ih (min a y) hx2

theorem foldl_min_cases (l : List ℚ) (a : ℚ) :
    l.foldl min a = a ∨ l.foldl min a ∈ l := by
  induction l generalizing a with
  | nil => exact Or.inl rfl
  | cons y ys ih =>
    rcases ih (min a y) with h | h
    · rcases min_choice a y with h2 | h2
      · exact Or.inl (by rw [List.foldl_cons, h, h2])
      · exact Or.inr (by rw [List.foldl_cons, h, h2]; exact List.mem_cons_self ..)
    · exact Or.inr (List.mem_cons_of_mem y h)

theorem le_foldl_max_init (l : List ℚ) (a : ℚ) : a ≤ l.foldl max a := by
  induction l generalizing a with
  | nil => exact le_refl a
  | cons x xs ih => exact le_trans (le_max_left a x) (ih (max a x))

theorem mem_le_foldl_max (l : List ℚ) (a : ℚ) {x : ℚ} (hx : x ∈ l) :
    x ≤ l.foldl max a := by
  induction l generalizing a with
  | nil => exact absurd hx (List.not_mem_nil x)
  | cons y ys ih =>
    rcases List.mem_cons.mp hx with rfl | hx2
    · exact le_trans (le_max_right a x) (le_foldl_max_init ys (max a x))
    · exact ih (max a y) hx2

theorem foldl_max_cases (l : List ℚ) (a : ℚ) :
    l.foldl max a = a ∨ l.foldl max a ∈ l := by
  induction l generalizing a with
  | nil => exact Or.inl rfl
  | cons y ys ih =>
    rcases ih (max a y) with h | h
    · rcases max_choice a y with h2 | h2
      · exact Or.inl (by rw [List.foldl_cons, h, h2])
      · exact Or.inr (by rw [List.foldl_cons, h, h2]; exact List.mem_cons_self ..)
    · exact Or.inr (List.mem_cons_of_mem y h)

theorem getMinsMaxs_eq_folds (m : Model) :
    getMinsMaxs m =
      (m.vertexList.foldl updateMins (maxFloat32, maxFloat32, maxFloat32),
       m.vertexList.foldl updateMaxs (-maxFloat32, -maxFloat32, -maxFloat32)) := by
  rw [getMinsMaxs, foldl_minmax_split]

theorem getMinsMaxs_min_le {m : Model} {v : Vec3} (hv : v ∈ m.vertexList) (k : ℕ) :
    (getMinsMaxs m).1.axis k ≤ v.axis k := by
  rw [getMinsMaxs_eq_folds]
  rw [foldl_updateMins_axis]
  exact foldl_min_le_mem _ _ (List.mem_map_of_mem _ hv)

theorem getMinsMaxs_le_max {m : Model} {v : Vec3} (hv : v ∈ m.vertexList) (k : ℕ) :
    v.axis k ≤ (getMinsMaxs m).2.axis k := by
  rw [getMinsMaxs_eq_folds]
  rw [foldl_updateMaxs_axis]
  exact mem_le_foldl_max _ _ (List.mem_map_of_mem _ hv)

theorem maxFloat32_pos : 0 < maxFloat32 := by norm_num [maxFloat32]

theorem vec3_axis_lt3 (q : ℚ) (k : ℕ) (hk : k < 3) :
    Vec3.axis (q, q, q) k = q := by
  rcases k with _ | _ | _ | k
  · rfl
  · rfl
  · rfl
  · omega

theorem vec3_axis_ge3 (v : Vec3) (k : ℕ) : Vec3.axis v (k + 3) = 0 := rfl

/-! ## Claim C9 -/

/-- C9: for a mesh with at least one triangle whose coordinates lie in the
finite single-precision range, on every axis the computed minimum is below
every vertex coordinate and the maximum above it, and both are attained by
some vertex; for a mesh with an empty triangle list the scan returns the
largest finite float as every minimum and its negation as every maximum,
so the minimum exceeds the maximum on every axis, without crashing. -/
theorem getMinsMaxs_bounds :
    (∀ m : Model, m.Triangles ≠ [] →
      (∀ v ∈ m.vertexList, ∀ k, k < 3 → |v.axis k| ≤ maxFloat32) →
      ∀ k : ℕ,
        (∀ v ∈ m.vertexList,
          (getMinsMaxs m).1.axis k ≤ v.axis k ∧
          v.axis k ≤ (getMinsMaxs m).2.axis k) ∧
        (∃ v ∈ m.vertexList, v.axis k = (getMinsMaxs m).1.axis k) ∧
        (∃ v ∈ m.vertexList, v.axis k = (getMinsMaxs m).2.axis k)) ∧
    (∀ m : Model, m.Triangles = [] →
      getMinsMaxs m =
        ((maxFloat32, maxFloat32, maxFloat32),
         (-maxFloat32, -maxFloat32, -maxFloat32)) ∧
      ∀ k, k < 3 → (getMinsMaxs m).2.axis k < (getMinsMaxs m).1.axis k) := by
  constructor
  · intro m hne hrange k
    obtain ⟨v0, hv0⟩ := List.exists_mem_of_ne_nil _ (vertexList_ne_nil hne)
    refine ⟨fun v hv => ⟨getMinsMaxs_min_le hv k, getMinsMaxs_le_max hv k⟩, ?_, ?_⟩
    · rw [getMinsMaxs_eq_folds]
      dsimp only
      rw [foldl_updateMins_axis]
      rcases foldl_min_cases (m.vertexList.map (fun v => Vec3.axis v k))
          (Vec3.axis (maxFloat32, maxFloat32, maxFloat32) k) with hc | hc
      · by_cases hk : k < 3
        · have hinit : Vec3.axis (maxFloat32, maxFloat32, maxFloat32) k = maxFloat32 :=
            vec3_axis_lt3 _ _ hk
          refine ⟨v0, hv0, ?_⟩
          have h1 := foldl_min_le_mem
            (m.vertexList.map (fun v => Vec3.axis v k))
            (Vec3.axis (maxFloat32, maxFloat32, maxFloat32) k)
            (List.mem_map_of_mem (fun v => Vec3.axis v k) hv0)
          rw [hc, hinit] at h1
          have h2 : Vec3.axis v0 k ≤ maxFloat32 := le_of_abs_le (hrange v0 hv0 k hk)
          rw [hc, hinit]
          exact le_antisymm h2 h1
        · obtain ⟨k2, rfl⟩ : ∃ k2, k = k2 + 3 := ⟨k - 3, by omega⟩
          exact ⟨v0, hv0, by rw [hc]; rfl⟩
      · obtain ⟨v1, hv1, hveq⟩ := List.mem_map.mp hc
        exact ⟨v1, hv1, hveq⟩
    · rw [getMinsMaxs_eq_folds]
      dsimp only
      rw [foldl_updateMaxs_axis]
      rcases foldl_max_cases (m.vertexList.map (fun v => Vec3.axis v k))
          (Vec3.axis (-maxFloat32, -maxFloat32, -maxFloat32) k) with hc | hc
      · by_cases hk : k < 3
        · have hinit :
              Vec3.axis (-maxFloat32, -maxFloat32, -maxFloat32) k = -maxFloat32 :=
            vec3_axis_lt3 _ _ hk
          refine ⟨v0, hv0, ?_⟩
          have h1 := mem_le_foldl_max
            (m.vertexList.map (fun v => Vec3.axis v k))
            (Vec3.axis (-maxFloat32, -maxFloat32, -maxFloat32) k)
            (List.mem_map_of_mem (fun v => Vec3.axis v k) hv0)
          rw [hc, hinit] at h1
          have h2 : -maxFloat32 ≤ Vec3.axis v0 k := neg_le_of_abs_le (hrange v0 hv0 k hk)
          rw [hc, hinit]
          exact le_antisymm h1 h2
        · obtain ⟨k2, rfl⟩ : ∃ k2, k = k2 + 3 := ⟨k - 3, by omega⟩
          exact ⟨v0, hv0, by rw [hc]; rfl⟩
      · obtain ⟨v1, hv1, hveq⟩ := List.mem_map.mp hc
        exact ⟨v1, hv1, hveq⟩
  · intro m he
    have hv : m.vertexList = [] := by simp [Model.vertexList, he]
    constructor
    · rw [getMinsMaxs, hv]; rfl
    · intro k hk
      rw [getMinsMaxs, hv]
      simp only [List.foldl_nil]
      rw [vec3_axis_lt3 _ _ hk, vec3_axis_lt3 _ _ hk]
      have := maxFloat32_pos
      linarith

/-- C9 witness: the non-empty branch applied to a concrete one-triangle
mesh with vertices (0,0,0), (1,1,1), (2,4,8) on axis 1, and the empty
branch applied to the empty mesh. -/
theorem getMinsMaxs_bounds_witness :
    (∃ v ∈ (Model.mk [] 1
        [⟨(0, 0, 1), ((0, 0, 0), (1, 1, 1), (2, 4, 8)), 0⟩]).vertexList,
      v.axis 1 =
        (getMinsMaxs (Model.mk [] 1
          [⟨(0, 0, 1), ((0, 0, 0), (1, 1, 1), (2, 4, 8)), 0⟩])).1.axis 1) ∧
    getMinsMaxs (Model.mk [] 0 []) =
      ((maxFloat32, maxFloat32, maxFloat32),
       (-maxFloat32, -maxFloat32, -maxFloat32)) :=
  ⟨((getMinsMaxs_bounds.1 (Model.mk [] 1
      [⟨(0, 0, 1), ((0, 0, 0), (1, 1, 1), (2, 4, 8)), 0⟩])
      (by simp)
      (by
        intro v hv k hk
        simp only [Model.vertexList, List.flatMap_cons, List.flatMap_nil,
          List.append_nil, List.mem_cons, List.not_mem_nil, or_false] at hv
        have hm : (0 : ℚ) < maxFloat32 := maxFloat32_pos
        have hm8 : (8 : ℚ) ≤ maxFloat32 := by norm_num [maxFloat32]
        rcases hv with rfl | rfl | rfl <;>
          rcases k with _ | _ | _ | k <;>
            simp_all [Vec3.axis, abs_le] <;> linarith)
      1).2.1),
   (getMinsMaxs_bounds.2 (Model.mk [] 0 []) rfl).1⟩

theorem getD_set {α : Type} (l : List α) (n : ℕ) (a : α) (i : ℕ) (d : α) :
    (l.set n a).getD i d = if n = i ∧ n < l.length then a else l.getD i d := by
  rw [List.getD_eq_getElem?_getD, List.getD_eq_getElem?_getD, List.getElem?_set]
  by_cases hn : n = i
  · subst hn
    by_cases hl : n < l.length
    · simp [hl]
    · simp only [hl, and_false, if_false, if_true, if_neg hl]
      rw [List.getElem?_eq_none (by omega)]
  · simp [hn]

theorem cellD_oob_right {g : Grid} {i : ℕ} (j : ℕ)
    (h : g.length ≤ i) : cellD g i j = 0 := by
  have hg : g.getD i [] = [] := by
    rw [List.getD_eq_getElem?_getD, List.getElem?_eq_none h]
    rfl
  unfold cellD
  rw [hg]
  simp

theorem getDimensions_axis (m : Model) (k : ℕ) :
    (getDimensions m).axis k =
      (getMinsMaxs m).2.axis k - (getMinsMaxs m).1.axis k := by
  rcases k with _ | _ | _ | k <;> simp [getDimensions, Vec3.axis]

theorem dims_axis_nonneg {m : Model} {v : Vec3} (hv : v ∈ m.vertexList) (k : ℕ) :
    0 ≤ (getDimensions m).axis k := by
  rw [getDimensions_axis]
  have h1 := getMinsMaxs_min_le hv k
  have h2 := getMinsMaxs_le_max hv k
  linarith

theorem sub_le_dims {m : Model} {v : Vec3} (hv : v ∈ m.vertexList) (k : ℕ) :
    v.axis k - (getMinsMaxs m).1.axis k ≤ (getDimensions m).axis k := by
  rw [getDimensions_axis]
  have h2 := getMinsMaxs_le_max hv k
  linarith

theorem chosenDim_ge (dims : Vec3) (aX aY : ℕ) :
    dims.axis aX ≤ chosenDim dims aX aY ∧ dims.axis aY ≤ chosenDim dims aX aY := by
  unfold chosenDim
  split_ifs with h
  · exact ⟨le_refl _, le_of_lt h⟩
  · exact ⟨not_lt.mp h, le_refl _⟩

theorem truncQ_range {q : ℚ} {S : ℤ} (h0 : 0 ≤ q) (hS : q ≤ (S : ℚ)) :
    0 ≤ truncQ q ∧ truncQ q ≤ S := by
  rw [truncQ, if_pos h0]
  refine ⟨Int.floor_nonneg.mpr h0, ?_⟩
  have := Int.floor_le_floor hS
  rwa [Int.floor_intCast] at this

theorem vertexCell_inBounds {m : Model} {v : Vec3} (hv : v ∈ m.vertexList)
    {S : ℤ} (hS : 0 ≤ S) (aX aY : ℕ)
    (hd : chosenDim (getDimensions m) aX aY ≠ 0) :
    cellInBounds S
      (vertexCell S (chosenDim (getDimensions m) aX aY) (getMinsMaxs m).1 aX aY v) := by
  have hdX := (chosenDim_ge (getDimensions m) aX aY).1
  have hdY := (chosenDim_ge (getDimensions m) aX aY).2
  have hnn := dims_axis_nonneg hv aX
  have hd_pos : 0 < chosenDim (getDimensions m) aX aY :=
    lt_of_le_of_ne (le_trans hnn hdX) (Ne.symm hd)
  by_cases hS0 : S = 0
  · subst hS0
    have ht : truncQ 0 = 0 := by rw [truncQ, if_pos (le_refl 0)]; exact Int.floor_zero
    unfold vertexCell
    rw [if_pos rfl, if_pos rfl]
    dsimp only
    rw [ht]
    unfold cellInBounds
    norm_num [Int.zero_tdiv]
  · have hS1 : 1 ≤ S := by omega
    have hSQ : (0 : ℚ) < (S : ℚ) := by exact_mod_cast (by omega : (0 : ℤ) < S)
    have hscale : 0 < chosenDim (getDimensions m) aX aY / (S : ℚ) :=
      div_pos hd_pos hSQ
    have hndiv : chosenDim (getDimensions m) aX aY /
        (chosenDim (getDimensions m) aX aY / (S : ℚ)) = (S : ℚ) := by
      field_simp
    have hminX := getMinsMaxs_min_le hv aX
    have hminY := getMinsMaxs_min_le hv aY
    have hadjX0 : 0 ≤ (v.axis aX - (getMinsMaxs m).1.axis aX) /
        (chosenDim (getDimensions m) aX aY / (S : ℚ)) :=
      div_nonneg (by linarith) hscale.le
    have hadjY0 : 0 ≤ (v.axis aY - (getMinsMaxs m).1.axis aY) /
        (chosenDim (getDimensions m) aX aY / (S : ℚ)) :=
      div_nonneg (by linarith) hscale.le
    have hadjXS : (v.axis aX - (getMinsMaxs m).1.axis aX) /
        (chosenDim (getDimensions m) aX aY / (S : ℚ)) ≤ (S : ℚ) := by
      have h1 : (v.axis aX - (getMinsMaxs m).1.axis aX) /
          (chosenDim (getDimensions m) aX aY / (S : ℚ)) ≤
          chosenDim (getDimensions m) aX aY /
          (chosenDim (getDimensions m) aX aY / (S : ℚ)) := by
        have hle := le_trans (sub_le_dims hv aX) hdX
        gcongr
      linarith [hndiv ▸ h1]
    have hadjYS : (v.axis aY - (getMinsMaxs m).1.axis aY) /
        (chosenDim (getDimensions m) aX aY / (S : ℚ)) ≤ (S : ℚ) := by
      have h1 : (v.axis aY - (getMinsMaxs m).1.axis aY) /
          (chosenDim (getDimensions m) aX aY / (S : ℚ)) ≤
          chosenDim (getDimensions m) aX aY /
          (chosenDim (getDimensions m) aX aY / (S : ℚ)) := by
        have hle := le_trans (sub_le_dims hv aY) hdY
        gcongr
      linarith [hndiv ▸ h1]
    obtain ⟨hx0, hxS⟩ := truncQ_range hadjX0 hadjXS
    obtain ⟨hy0, hyS⟩ := truncQ_range hadjY0 hadjYS
    unfold vertexCell
    rw [if_neg hS0, if_neg hS0]
    dsimp only
    unfold cellInBounds
    refine ⟨Int.tdiv_nonneg (by omega) (by norm_num), ?_, hy0, by omega⟩
    have e1 : (S - truncQ ((v.axis aX - (getMinsMaxs m).1.axis aX) /
        (chosenDim (getDimensions m) aX aY / (S : ℚ)))).tdiv 2 =
        (S - truncQ ((v.axis aX - (getMinsMaxs m).1.axis aX) /
        (chosenDim (getDimensions m) aX aY / (S : ℚ)))) / 2 :=
      Int.tdiv_eq_ediv (by omega) (by norm_num)
    have e2 : S.tdiv 2 = S / 2 := Int.tdiv_eq_ediv hS (by norm_num)
    rw [e1, e2]
    have := Int.ediv_le_ediv (by norm_num : (0 : ℤ) < 2)
      (by omega : S - truncQ ((v.axis aX - (getMinsMaxs m).1.axis aX) /
        (chosenDim (getDimensions m) aX aY / (S : ℚ))) ≤ S)
    omega

theorem get_eq_getD {α : Type} (l : List α) (n : ℕ) (h : n < l.length) (d : α) :
    l.get ⟨n, h⟩ = l.getD n d := by
  rw [List.getD_eq_getElem?_getD, List.getElem?_eq_getElem h]
  rfl

theorem projWrite_none_spec {g : Grid} {r c : ℤ} {g2 : Grid}
    (h : projWrite g r c none = some g2) :
    g2 = g ∧ 0 ≤ r ∧ r.toNat < g.length ∧ 0 ≤ c ∧
      c.toNat < (g.getD r.toNat []).length := by
  unfold projWrite at h
  by_cases h1 : 0 ≤ r ∧ r.toNat < g.length
  · rw [dif_pos h1] at h
    dsimp only at h
    by_cases h2 : 0 ≤ c ∧ c.toNat < (g.get ⟨r.toNat, h1.2⟩).length
    · rw [dif_pos h2] at h
      simp only [Option.some.injEq] at h
      rw [get_eq_getD g r.toNat h1.2 []] at h2
      exact ⟨h.symm, h1.1, h1.2, h2.1, h2.2⟩
    · rw [dif_neg h2] at h
      exact absurd h (by simp)
  · rw [dif_neg h1] at h
    exact absurd h (by simp)

theorem projWrite_some_spec {g : Grid} {r c : ℤ} {q : ℚ} {g2 : Grid}
    (h : projWrite g r c (some q) = some g2) :
    0 ≤ r ∧ r.toNat < g.length ∧ 0 ≤ c ∧
      c.toNat < (g.getD r.toNat []).length ∧
    g2.length = g.length ∧
    (∀ i : ℕ, (g2.getD i []).length = (g.getD i []).length) ∧
    (∀ i j : ℕ, cellD g2 i j =
      if r = (i : ℤ) ∧ c = (j : ℤ) then max (cellD g i j) q else cellD g i j) := by
  unfold projWrite at h
  by_cases h1 : 0 ≤ r ∧ r.toNat < g.length
  swap
  · rw [dif_neg h1] at h
    exact absurd h (by simp)
  rw [dif_pos h1] at h
  dsimp only at h
  by_cases h2 : 0 ≤ c ∧ c.toNat < (g.get ⟨r.toNat, h1.2⟩).length
  swap
  · rw [dif_neg h2] at h
    exact absurd h (by simp)
  rw [dif_pos h2] at h
  have hrow : g.get ⟨r.toNat, h1.2⟩ = g.getD r.toNat [] := get_eq_getD ..
  have hcur : (g.get ⟨r.toNat, h1.2⟩).get ⟨c.toNat, h2.2⟩ =
      (g.getD r.toNat []).getD c.toNat 0 := by
    rw [get_eq_getD _ c.toNat h2.2 0, hrow]
  have h2n : c.toNat < (g.getD r.toNat []).length := hrow ▸ h2.2
  have hiff : ∀ i j : ℕ,
      ((r = (i : ℤ) ∧ c = (j : ℤ)) ↔ (r.toNat = i ∧ c.toNat = j)) := by
    intro i j
    constructor
    · rintro ⟨rfl, rfl⟩; exact ⟨Int.toNat_natCast i, Int.toNat_natCast j⟩
    · rintro ⟨hi, hj⟩
      have hr0 := h1.1
      have hc0 := h2.1
      constructor <;> omega
  refine ⟨h1.1, h1.2, h2.1, h2n, ?_, ?_, ?_⟩
  · by_cases hq : q > (g.get ⟨r.toNat, h1.2⟩).get ⟨c.toNat, h2.2⟩
    · rw [if_pos hq] at h
      simp only [Option.some.injEq] at h
      rw [← h, List.length_set]
    · rw [if_neg hq] at h
      simp only [Option.some.injEq] at h
      rw [← h]
  · intro i
    by_cases hq : q > (g.get ⟨r.toNat, h1.2⟩).get ⟨c.toNat, h2.2⟩
    · rw [if_pos hq] at h
      simp only [Option.some.injEq] at h
      rw [← h, getD_set]
      split_ifs with hcase
      · rw [← hcase.1, List.length_set, hrow]
      · rfl
    · rw [if_neg hq] at h
      simp only [Option.some.injEq] at h
      rw [← h]
  · intro i j
    by_cases hq : q > (g.get ⟨r.toNat, h1.2⟩).get ⟨c.toNat, h2.2⟩
    · rw [if_pos hq] at h
      simp only [Option.some.injEq] at h
      rw [← h]
      unfold cellD
      rw [getD_set]
      by_cases hcase : r.toNat = i ∧ r.toNat < g.length
      · rw [if_pos hcase, hrow, getD_set]
        obtain ⟨hi, -⟩ := hcase
        by_cases hcase2 : c.toNat = j ∧ c.toNat < (g.getD r.toNat []).length
        · rw [if_pos hcase2]
          have hj := hcase2.1
          rw [if_pos ((hiff i j).mpr ⟨hi, hj⟩)]
          rw [← hi, ← hj]
          rw [hcur] at hq
          exact (max_eq_right (le_of_lt hq)).symm
        · have hnotj : ¬ (c.toNat = j) := by
            intro hj; exact hcase2 ⟨hj, h2n⟩
          rw [if_neg hcase2, if_neg (by rw [hiff i j]; tauto)]
          rw [hi]
      · rw [if_neg hcase]
        have hnoti : ¬ (r.toNat = i) := by
          intro hi; exact hcase ⟨hi, h1.2⟩
        rw [if_neg (by rw [hiff i j]; tauto)]
    · rw [if_neg hq] at h
      simp only [Option.some.injEq] at h
      rw [← h]
      split_ifs with hcase
      · obtain ⟨hi, hj⟩ := (hiff i j).mp hcase
        have hcc : cellD g i j = (g.getD r.toNat []).getD c.toNat 0 := by
          unfold cellD; rw [← hi, ← hj]
        rw [hcur] at hq
        rw [hcc, max_eq_left (not_lt.mp hq)]
      · rfl

theorem projLoop_cells {S : ℤ} {aX aY aV : ℕ} {mins dims : Vec3} {d : ℚ} :
    ∀ (vs : List Vec3) (g g2 : Grid),
      projLoop (projStep S aX aY aV mins dims d) g vs = some g2 →
      ∀ i j : ℕ, cellD g2 i j =
        (vs.filterMap (fun v =>
          if dims.axis aV = 0 then none
          else if vertexCell S d mins aX aY v = ((i : ℤ), (j : ℤ)) then
            some ((v.axis aV - mins.axis aV) / dims.axis aV)
          else none)).foldl max (cellD g i j) := by
  intro vs
  induction vs with
  | nil =>
    intro g g2 h i j
    simp only [projLoop] at h
    obtain rfl := Option.some.inj h
    simp
  | cons v vs ih =>
    intro g g2 h i j
    simp only [projLoop] at h
    cases hstep : projStep S aX aY aV mins dims d g v with
    | none => rw [hstep] at h; exact absurd h (by simp)
    | some g1 =>
      rw [hstep] at h
      simp only at h
      have hrec := ih g1 g2 h i j
      unfold projStep at hstep
      by_cases hd0 : d = 0
      · rw [if_pos hd0] at hstep; exact absurd hstep (by simp)
      · rw [if_neg hd0] at hstep
        dsimp only at hstep
        by_cases hv0 : dims.axis aV = 0
        · have hnone : newDepth dims mins aV v = none := by
            rw [newDepth, if_pos hv0]
          rw [hnone] at hstep
          obtain ⟨rfl, -, -, -, -⟩ := projWrite_none_spec hstep
          rw [hrec]
          simp only [List.filterMap_cons, if_pos hv0]
        · have hsome : newDepth dims mins aV v =
              some ((v.axis aV - mins.axis aV) / dims.axis aV) := by
            rw [newDepth, if_neg hv0]
          rw [hsome] at hstep
          obtain ⟨-, -, -, -, -, -, hcell⟩ := projWrite_some_spec hstep
          rw [hrec, hcell i j]
          simp only [List.filterMap_cons, if_neg hv0]
          by_cases hmatch : vertexCell S d mins aX aY v = ((i : ℤ), (j : ℤ))
          · have hm2 : (vertexCell S d mins aX aY v).1 = (i : ℤ) ∧
                (vertexCell S d mins aX aY v).2 = (j : ℤ) := by
              rw [hmatch]; exact ⟨rfl, rfl⟩
            rw [if_pos hm2, if_pos hmatch]
            simp only [List.foldl_cons]
          · have hm2 : ¬ ((vertexCell S d mins aX aY v).1 = (i : ℤ) ∧
                (vertexCell S d mins aX aY v).2 = (j : ℤ)) := by
              intro hcon
              exact hmatch (Prod.ext hcon.1 hcon.2)
            rw [if_neg hm2, if_neg hmatch]

theorem projLoop_shape {S : ℤ} {aX aY aV : ℕ} {mins dims : Vec3} {d : ℚ} :
    ∀ (vs : List Vec3) (g g2 : Grid),
      projLoop (projStep S aX aY aV mins dims d) g vs = some g2 →
      g2.length = g.length ∧
        ∀ i : ℕ, (g2.getD i []).length = (g.getD i []).length := by
  intro vs
  induction vs with
  | nil =>
    intro g g2 h
    obtain rfl := Option.some.inj h
    exact ⟨rfl, fun i => rfl⟩
  | cons v vs ih =>
    intro g g2 h
    simp only [projLoop] at h
    cases hstep : projStep S aX aY aV mins dims d g v with
    | none => rw [hstep] at h; exact absurd h (by simp)
    | some g1 =>
      rw [hstep] at h
      simp only at h
      obtain ⟨hL, hR⟩ := ih g1 g2 h
      unfold projStep at hstep
      by_cases hd0 : d = 0
      · rw [if_pos hd0] at hstep; exact absurd hstep (by simp)
      · rw [if_neg hd0] at hstep
        dsimp only at hstep
        cases hnv : newDepth dims mins aV v with
        | none =>
          rw [hnv] at hstep
          obtain ⟨rfl, -, -, -, -⟩ := projWrite_none_spec hstep
          exact ⟨hL, hR⟩
        | some q =>
          rw [hnv] at hstep
          obtain ⟨-, -, -, -, hL2, hR2, -⟩ := projWrite_some_spec hstep
          exact ⟨hL.trans hL2, fun i => (hR i).trans (hR2 i)⟩

theorem projLoop_some_inbounds {S : ℤ} {aX aY aV : ℕ} {mins dims : Vec3} {d : ℚ} :
    ∀ (vs : List Vec3) (g g2 : Grid),
      projLoop (projStep S aX aY aV mins dims d) g vs = some g2 →
      (g.length : ℤ) = Int.tdiv S 2 + 1 →
      (∀ i : ℕ, i < g.length → ((g.getD i []).length : ℤ) = S + 1) →
      ∀ v ∈ vs, d ≠ 0 ∧ cellInBounds S (vertexCell S d mins aX aY v) := by
  intro vs
  induction vs with
  | nil => intro g g2 h hlen hrows v hv; exact absurd hv (List.not_mem_nil v)
  | cons v0 vs ih =>
    intro g g2 h hlen hrows v hv
    simp only [projLoop] at h
    cases hstep : projStep S aX aY aV mins dims d g v0 with
    | none => rw [hstep] at h; exact absurd h (by simp)
    | some g1 =>
      rw [hstep] at h
      simp only at h
      unfold projStep at hstep
      by_cases hd0 : d = 0
      · rw [if_pos hd0] at hstep; exact absurd hstep (by simp)
      · rw [if_neg hd0] at hstep
        dsimp only at hstep
        have hb0 : 0 ≤ (vertexCell S d mins aX aY v0).1 ∧
            (vertexCell S d mins aX aY v0).1.toNat < g.length ∧
            0 ≤ (vertexCell S d mins aX aY v0).2 ∧
            (vertexCell S d mins aX aY v0).2.toNat <
              (g.getD (vertexCell S d mins aX aY v0).1.toNat []).length := by
          cases hnv : newDepth dims mins aV v0 with
          | none =>
            rw [hnv] at hstep
            obtain ⟨-, a, b, c, dd⟩ := projWrite_none_spec hstep
            exact ⟨a, b, c, dd⟩
          | some q =>
            rw [hnv] at hstep
            obtain ⟨a, b, c, dd, -, -, -⟩ := projWrite_some_spec hstep
            exact ⟨a, b, c, dd⟩
        have hshape1 : g1.length = g.length ∧
            ∀ i : ℕ, (g1.getD i []).length = (g.getD i []).length := by
          cases hnv : newDepth dims mins aV v0 with
          | none =>
            rw [hnv] at hstep
            obtain ⟨rfl, -, -, -, -⟩ := projWrite_none_spec hstep
            exact ⟨rfl, fun i => rfl⟩
          | some q =>
            rw [hnv] at hstep
            obtain ⟨-, -, -, -, hL2, hR2, -⟩ := projWrite_some_spec hstep
            exact ⟨hL2, hR2⟩
        rcases List.mem_cons.mp hv with rfl | hv2
        · refine ⟨hd0, ?_⟩
          obtain ⟨a, b, c, dd⟩ := hb0
          have hrlen := hrows _ b
          unfold cellInBounds
          refine ⟨a, by omega, c, by omega⟩
        · exact ih g1 g2 h (by rw [hshape1.1]; exact hlen)
            (fun i hi => by rw [hshape1.2 i]; exact hrows i (hshape1.1 ▸ hi)) v hv2

theorem projLoop_total {S : ℤ} {aX aY aV : ℕ} {mins dims : Vec3} {d : ℚ}
    (hd0 : d ≠ 0) :
    ∀ (vs : List Vec3) (g : Grid),
      (∀ v ∈ vs, cellInBounds S (vertexCell S d mins aX aY v)) →
      (g.length : ℤ) = Int.tdiv S 2 + 1 →
      (∀ i : ℕ, i < g.length → ((g.getD i []).length : ℤ) = S + 1) →
      ∃ g2, projLoop (projStep S aX aY aV mins dims d) g vs = some g2 := by
  intro vs
  induction vs with
  | nil => intro g _ _ _; exact ⟨g, rfl⟩
  | cons v vs ih =>
    intro g hb hlen hrows
    obtain ⟨hr0, hr1, hc0, hc1⟩ := hb v (List.mem_cons_self ..)
    have hrn : (vertexCell S d mins aX aY v).1.toNat < g.length := by omega
    have hrlen := hrows _ hrn
    have hcn : (vertexCell S d mins aX aY v).2.toNat <
        (g.getD (vertexCell S d mins aX aY v).1.toNat []).length := by omega
    have hw : ∃ g1, projWrite g (vertexCell S d mins aX aY v).1
        (vertexCell S d mins aX aY v).2 (newDepth dims mins aV v) = some g1 := by
      unfold projWrite
      rw [dif_pos ⟨hr0, hrn⟩]
      dsimp only
      rw [dif_pos ⟨hc0, by rw [get_eq_getD _ _ hrn []]; exact hcn⟩]
      cases newDepth dims mins aV v with
      | none => exact ⟨g, rfl⟩
      | some q =>
        dsimp only
        split_ifs <;> exact ⟨_, rfl⟩
    obtain ⟨g1, hw⟩ := hw
    have hstep : projStep S aX aY aV mins dims d g v = some g1 := by
      unfold projStep
      rw [if_neg hd0]
      exact hw
    have hshape1 : g1.length = g.length ∧
        ∀ i : ℕ, (g1.getD i []).length = (g.getD i []).length := by
      cases hnv : newDepth dims mins aV v with
      | none =>
        rw [hnv] at hw
        obtain ⟨rfl, -, -, -, -⟩ := projWrite_none_spec hw
        exact ⟨rfl, fun i => rfl⟩
      | some q =>
        rw [hnv] at hw
        obtain ⟨-, -, -, -, hL2, hR2, -⟩ := projWrite_some_spec hw
        exact ⟨hL2, hR2⟩
    obtain ⟨g2, hg2⟩ := ih g1 (fun w hwm => hb w (List.mem_cons_of_mem _ hwm))
      (by rw [hshape1.1]; exact hlen)
      (fun i hi => by rw [hshape1.2 i]; exact hrows i (hshape1.1 ▸ hi))
    refine ⟨g2, ?_⟩
    simp only [projLoop]
    rw [hstep]
    exact hg2

theorem tdiv2_neg {S : ℤ} (h : S ≤ -2) : Int.tdiv S 2 ≤ -1 := by
  have he : (-S).tdiv 2 = (-S) / 2 := Int.tdiv_eq_ediv (by omega) (by norm_num)
  have h1 : (1 : ℤ) ≤ (-S) / 2 := by
    have h2 := Int.ediv_le_ediv (by norm_num : (0 : ℤ) < 2) (by omega : 2 ≤ -S)
    have h3 : (2 : ℤ) / 2 = 1 := by decide
    omega
  have h4 : S.tdiv 2 = -((-S).tdiv 2) := by
    have h5 := Int.neg_tdiv (-S) 2
    rw [neg_neg] at h5
    omega
  omega

theorem getD_replicate_lt {α : Type} (n : ℕ) (a : α) {i : ℕ} (h : i < n) (dflt : α) :
    (List.replicate n a).getD i dflt = a := by
  rw [List.getD_eq_getElem?_getD, List.getElem?_replicate, if_pos h]
  rfl

theorem cellD_zero_grid (R C : ℕ) (i j : ℕ) :
    cellD (List.replicate R (List.replicate C (0 : ℚ))) i j = 0 := by
  unfold cellD
  by_cases hi : i < R
  · rw [getD_replicate_lt _ _ hi]
    by_cases hj : j < C
    · rw [getD_replicate_lt _ _ hj]
    · rw [List.getD_eq_getElem?_getD,
        List.getElem?_eq_none (by rw [List.length_replicate]; omega)]
      rfl
  · have hnone : (List.replicate R (List.replicate C (0 : ℚ))).getD i [] = [] := by
      rw [List.getD_eq_getElem?_getD,
        List.getElem?_eq_none (by rw [List.length_replicate]; omega)]
      rfl
    rw [hnone]
    rfl

theorem ProjectModelVertices_spec {m : Model} {S : ℤ} {p : ProjectFrom} {g : Grid}
    (h : ProjectModelVertices m S p = some g) :
    (g.length : ℤ) = Int.tdiv S 2 + 1 ∧
    (∀ row ∈ g, (row.length : ℤ) = S + 1) ∧
    (∀ v ∈ m.vertexList,
      chosenDim (getDimensions m) p.GetAxisForProjection.1
        p.GetAxisForProjection.2.1 ≠ 0 ∧
      cellInBounds S (vertexCell S
        (chosenDim (getDimensions m) p.GetAxisForProjection.1
          p.GetAxisForProjection.2.1)
        (getMinsMaxs m).1 p.GetAxisForProjection.1 p.GetAxisForProjection.2.1 v)) ∧
    (∀ i j : ℕ, cellD g i j = (depthsAt m S p i j).foldl max 0) := by
  unfold ProjectModelVertices at h
  dsimp only at h
  by_cases hneg : Int.tdiv S 2 + 1 < 0
  · rw [if_pos hneg] at h; exact absurd h (by simp)
  rw [if_neg hneg] at h
  have hlen0 : ((List.replicate (Int.tdiv S 2 + 1).toNat
      (List.replicate (S + 1).toNat (0 : ℚ))).length : ℤ) = Int.tdiv S 2 + 1 := by
    rw [List.length_replicate]; omega
  have hrows0 : ∀ i : ℕ, i < (List.replicate (Int.tdiv S 2 + 1).toNat
      (List.replicate (S + 1).toNat (0 : ℚ))).length →
      (((List.replicate (Int.tdiv S 2 + 1).toNat
        (List.replicate (S + 1).toNat (0 : ℚ))).getD i []).length : ℤ) = S + 1 := by
    intro i hi
    rw [List.length_replicate] at hi
    rw [getD_replicate_lt _ _ hi, List.length_replicate]
    have hpos : 0 < (Int.tdiv S 2 + 1).toNat := by omega
    have hS1 : -1 ≤ S := by
      by_contra hcon
      have := tdiv2_neg (by omega : S ≤ -2)
      omega
    omega
  have hcells := projLoop_cells m.vertexList _ g h
  have hshape := projLoop_shape m.vertexList _ g h
  have hinb := projLoop_some_inbounds m.vertexList _ g h hlen0 hrows0
  refine ⟨by rw [hshape.1]; exact hlen0, ?_, hinb, ?_⟩
  · intro row hrow
    obtain ⟨i, hrw⟩ := List.mem_iff_get.mp hrow
    have h1 : row.length = (g.getD (i : ℕ) []).length := by
      rw [← hrw, get_eq_getD]
    rw [h1, hshape.2 i]
    refine hrows0 i ?_
    have h2 := i.isLt
    have h3 := hshape.1
    omega
  · intro i j
    rw [hcells i j, cellD_zero_grid]
    unfold depthsAt
    dsimp only
    by_cases hv0 : (getDimensions m).axis p.GetAxisForProjection.2.2 = 0
    · rw [if_pos hv0]
      have hfm : m.vertexList.filterMap (fun v =>
          if (getDimensions m).axis p.GetAxisForProjection.2.2 = 0 then none
          else if vertexCell S (chosenDim (getDimensions m)
              p.GetAxisForProjection.1 p.GetAxisForProjection.2.1)
              (getMinsMaxs m).1 p.GetAxisForProjection.1
              p.GetAxisForProjection.2.1 v = ((i : ℤ), (j : ℤ)) then
            some ((v.axis p.GetAxisForProjection.2.2 -
              (getMinsMaxs m).1.axis p.GetAxisForProjection.2.2) /
              (getDimensions m).axis p.GetAxisForProjection.2.2)
          else none) = [] := by
        simp [hv0]
      rw [hfm]
    · rw [if_neg hv0]
      congr 1
      apply List.filterMap_congr
      intro v hv
      rw [if_neg hv0]

theorem ProjectModelVertices_total {m : Model} {S : ℤ} (p : ProjectFrom)
    (hS : 0 ≤ S)
    (h : m.Triangles = [] ∨
      chosenDim (getDimensions m) p.GetAxisForProjection.1
        p.GetAxisForProjection.2.1 ≠ 0) :
    ∃ g, ProjectModelVertices m S p = some g := by
  unfold ProjectModelVertices
  dsimp only
  have htd : 0 ≤ Int.tdiv S 2 := Int.tdiv_nonneg hS (by norm_num)
  rw [if_neg (by omega : ¬ (Int.tdiv S 2 + 1 < 0))]
  have hlen0 : ((List.replicate (Int.tdiv S 2 + 1).toNat
      (List.replicate (S + 1).toNat (0 : ℚ))).length : ℤ) = Int.tdiv S 2 + 1 := by
    rw [List.length_replicate]; omega
  have hrows0 : ∀ i : ℕ, i < (List.replicate (Int.tdiv S 2 + 1).toNat
      (List.replicate (S + 1).toNat (0 : ℚ))).length →
      (((List.replicate (Int.tdiv S 2 + 1).toNat
        (List.replicate (S + 1).toNat (0 : ℚ))).getD i []).length : ℤ) = S + 1 := by
    intro i hi
    rw [List.length_replicate] at hi
    rw [getD_replicate_lt _ _ hi, List.length_replicate]
    omega
  rcases h with he | hd
  · have hvl : m.vertexList = [] := by simp [Model.vertexList, he]
    rw [hvl]
    exact ⟨_, rfl⟩
  · exact projLoop_total hd m.vertexList _
      (fun v hv => vertexCell_inBounds hv hS _ _ hd) hlen0 hrows0

theorem foldr_max_init (l : List ℚ) (a x : ℚ) :
    l.foldr max (max a x) = max x (l.foldr max a) := by
  induction l with
  | nil => exact max_comm a x
  | cons y ys ih =>
    simp only [List.foldr_cons]
    rw [ih]
    exact max_left_comm ..

theorem foldl_max_eq_foldr (l : List ℚ) (a : ℚ) : l.foldl max a = l.foldr max a := by
  induction l generalizing a with
  | nil => rfl
  | cons x ys ih =>
    simp only [List.foldl_cons, List.foldr_cons]
    rw [ih (max a x), foldr_max_init]

theorem depthsAt_flat {m : Model} {S : ℤ} {p : ProjectFrom} (i j : ℕ)
    (hv0 : (getDimensions m).axis p.GetAxisForProjection.2.2 = 0) :
    depthsAt m S p i j = [] := by
  unfold depthsAt
  dsimp only
  rw [if_pos hv0]

theorem depthsAt_nonneg {m : Model} {S : ℤ} {p : ProjectFrom} {i j : ℕ} {x : ℚ}
    (hx : x ∈ depthsAt m S p i j) : 0 ≤ x := by
  unfold depthsAt at hx
  dsimp only at hx
  by_cases hv0 : (getDimensions m).axis p.GetAxisForProjection.2.2 = 0
  · rw [if_pos hv0] at hx
    exact absurd hx (List.not_mem_nil x)
  · rw [if_neg hv0] at hx
    obtain ⟨v, hv, hveq⟩ := List.mem_filterMap.mp hx
    by_cases hc : vertexCell S
        (chosenDim (getDimensions m) p.GetAxisForProjection.1
          p.GetAxisForProjection.2.1)
        (getMinsMaxs m).1 p.GetAxisForProjection.1 p.GetAxisForProjection.2.1 v =
        ((i : ℤ), (j : ℤ))
    · rw [if_pos hc] at hveq
      obtain rfl := Option.some.inj hveq
      have hnum : 0 ≤ v.axis p.GetAxisForProjection.2.2 -
          (getMinsMaxs m).1.axis p.GetAxisForProjection.2.2 := by
        have := getMinsMaxs_min_le hv p.GetAxisForProjection.2.2
        linarith
      exact div_nonneg hnum (dims_axis_nonneg hv _)
    · rw [if_neg hc] at hveq
      exact absurd hveq (by simp)

/-! ## Claim C2 -/

set_option maxRecDepth 100000 in
/-- C2 counterexample: at resolution -1 (a value the claim quantifies
over), the single allocated row has zero columns, the first vertex of the
concrete mesh below is mapped to cell (0,0), and the unguarded read
`matrix[0][0]` is out of range: the function panics instead of clamping
or skipping the vertex.  All values involved are small integers, on which
`float32` arithmetic is exact. -/
theorem projectModelVertices_oob_panics :
    ProjectModelVertices
      ⟨[], 1, [⟨(0, 0, 1), ((0, 0, 0), (1, 1, 1), (2, 2, 2)), 0⟩]⟩ (-1)
      ProjectFrom.side = none := by
  with_unfolding_all rfl

/-- C2 amended: `ProjectModelVertices` contains no clamping and no
skipping: whenever it returns a grid at all, every vertex's computed cell
lay inside the allocated grid (and the scale-defining extent was nonzero);
a vertex whose computed cell falls outside the grid causes an
out-of-range panic instead.  Under exact arithmetic, for every
non-negative resolution and every mesh that is empty or not flat along
both display axes, all computed cells are in range and no panic occurs. -/
theorem projection_inbounds_no_clamp (m : Model) (S : ℤ) (p : ProjectFrom) :
    (∀ g, ProjectModelVertices m S p = some g →
      ∀ v ∈ m.vertexList,
        chosenDim (getDimensions m) p.GetAxisForProjection.1
          p.GetAxisForProjection.2.1 ≠ 0 ∧
        cellInBounds S (vertexCell S
          (chosenDim (getDimensions m) p.GetAxisForProjection.1
            p.GetAxisForProjection.2.1)
          (getMinsMaxs m).1 p.GetAxisForProjection.1
          p.GetAxisForProjection.2.1 v)) ∧
    (0 ≤ S →
      (m.Triangles = [] ∨
        chosenDim (getDimensions m) p.GetAxisForProjection.1
          p.GetAxisForProjection.2.1 ≠ 0) →
      ProjectModelVertices m S p ≠ none) := by
  constructor
  · intro g h
    exact (ProjectModelVertices_spec h).2.2.1
  · intro hS hd
    obtain ⟨g, hg⟩ := ProjectModelVertices_total p hS hd
    rw [hg]
    simp

set_option maxRecDepth 100000 in
/-- C2 witness: at resolution 4 from the top, the projection of the
concrete one-triangle mesh returns a grid (no panic). -/
theorem projection_inbounds_no_clamp_witness :
    ProjectModelVertices
      ⟨[], 1, [⟨(0, 0, 1), ((0, 0, 0), (1, 1, 1), (2, 2, 2)), 0⟩]⟩ 4
      ProjectFrom.top ≠ none :=
  (projection_inbounds_no_clamp
      ⟨[], 1, [⟨(0, 0, 1), ((0, 0, 0), (1, 1, 1), (2, 2, 2)), 0⟩]⟩ 4
      ProjectFrom.top).2 (by norm_num)
    (Or.inr (of_decide_eq_true (by with_unfolding_all rfl)))

/-! ## Claim C6 -/

/-- C6 counterexample: at resolution -4 the row count `(-4)/2 + 1 = -1` is
negative and `make` panics, so no grid of the claimed shape is returned;
the claim fails for negative resolutions (and, separately, for meshes
flat along both display axes, where the scale is 0 and the adjusted
coordinates are not finite). -/
theorem projectModelVertices_negative_size_panics :
    ProjectModelVertices ⟨[], 0, []⟩ (-4) ProjectFrom.top = none := rfl

/-- C6 amended: whenever `ProjectModelVertices` returns a grid (it panics
for sufficiently negative resolutions, for out-of-grid vertices, and the
behaviour is undefined for meshes flat along both display axes), that
grid has exactly `S/2 + 1` rows (Go division truncating toward zero) of
exactly `S + 1` columns each; and for every `S ≥ 0` and every mesh that
is empty or not flat along both display axes a grid is returned. -/
theorem projection_grid_shape (m : Model) (S : ℤ) (p : ProjectFrom) :
    (∀ g, ProjectModelVertices m S p = some g →
      (g.length : ℤ) = Int.tdiv S 2 + 1 ∧
      ∀ row ∈ g, (row.length : ℤ) = S + 1) ∧
    (0 ≤ S →
      (m.Triangles = [] ∨
        chosenDim (getDimensions m) p.GetAxisForProjection.1
          p.GetAxisForProjection.2.1 ≠ 0) →
      ∃ g, ProjectModelVertices m S p = some g) := by
  constructor
  · intro g h
    obtain ⟨h1, h2, -, -⟩ := ProjectModelVertices_spec h
    exact ⟨h1, h2⟩
  · intro hS hd
    exact ProjectModelVertices_total p hS hd

set_option maxRecDepth 100000 in
/-- C6 witness: the projection of a concrete one-triangle mesh at
resolution 5 from the front returns a grid with `5/2 + 1 = 3` rows. -/
theorem projection_grid_shape_witness :
    (((ProjectModelVertices
        ⟨[], 1, [⟨(0, 0, 1), ((0, 0, 0), (1, 1, 1), (2, 2, 2)), 0⟩]⟩ 5
        ProjectFrom.front).getD []).length : ℤ) = Int.tdiv 5 2 + 1 ∧
    ∃ g, ProjectModelVertices
        ⟨[], 1, [⟨(0, 0, 1), ((0, 0, 0), (1, 1, 1), (2, 2, 2)), 0⟩]⟩ 5
        ProjectFrom.front = some g :=
  ⟨((projection_grid_shape
      ⟨[], 1, [⟨(0, 0, 1), ((0, 0, 0), (1, 1, 1), (2, 2, 2)), 0⟩]⟩ 5
      ProjectFrom.front).1 _ (by with_unfolding_all rfl)).1,
   (projection_grid_shape
      ⟨[], 1, [⟨(0, 0, 1), ((0, 0, 0), (1, 1, 1), (2, 2, 2)), 0⟩]⟩ 5
      ProjectFrom.front).2 (by norm_num)
     (Or.inr (of_decide_eq_true (by with_unfolding_all rfl)))⟩

/-! ## Claim C8 -/

/-- C8: whenever the projection returns a grid, every cell `(i, j)` holds
exactly the maximum (with default 0 when no vertex maps there) of the
normalized depths `(v[depth] - depthMin)/depthExtent` over the vertices
mapped to row `(S - gridX)/2` and column `gridY` equal to `(i, j)` —
never an average and never the first-written value.  The mapping and the
depth formula are those of `vertexCell` and `depthsAt`. -/
theorem projection_cell_max_depth (m : Model) (S : ℤ) (p : ProjectFrom) (g : Grid)
    (h : ProjectModelVertices m S p = some g) :
    ∀ i j : ℕ, cellD g i j = (depthsAt m S p i j).foldr max 0 := by
  intro i j
  rw [(ProjectModelVertices_spec h).2.2.2 i j, foldl_max_eq_foldr]

set_option maxRecDepth 100000 in
/-- C8 witness: the cell formula instantiated on a concrete two-triangle
mesh at resolution 4 from the top, at cells (0,0) and (2,4). -/
theorem projection_cell_max_depth_witness :
    cellD ((ProjectModelVertices
        ⟨[], 2, [⟨(0, 0, 1), ((0, 0, 0), (1, 1, 1), (2, 2, 2)), 0⟩,
                 ⟨(0, 0, 1), ((0, 0, 2), (2, 0, 1), (1, 2, 0)), 0⟩]⟩ 4
        ProjectFrom.top).getD []) 0 0 =
      (depthsAt
        ⟨[], 2, [⟨(0, 0, 1), ((0, 0, 0), (1, 1, 1), (2, 2, 2)), 0⟩,
                 ⟨(0, 0, 1), ((0, 0, 2), (2, 0, 1), (1, 2, 0)), 0⟩]⟩ 4
        ProjectFrom.top 0 0).foldr max 0 :=
  projection_cell_max_depth
    ⟨[], 2, [⟨(0, 0, 1), ((0, 0, 0), (1, 1, 1), (2, 2, 2)), 0⟩,
             ⟨(0, 0, 1), ((0, 0, 2), (2, 0, 1), (1, 2, 0)), 0⟩]⟩ 4 ProjectFrom.top _
    (by with_unfolding_all rfl) 0 0

/-! ## Claim C10 -/

/-- C10: whenever the projection returns a grid, every cell is
non-negative (cells hold either the default 0 or a normalized depth,
which is a quotient of non-negatives), and when the depth extent is 0 —
a mesh flat along the depth axis, where in Go every candidate is the NaN
`0/0` and therefore fails the strict `>` comparison so that no write ever
happens — every cell of the returned grid is 0.  In the exact embedding
the never-writing NaN candidate is rendered by `newDepth` returning
`none`, which `projWrite` treats as compare-false. -/
theorem projection_cells_nonneg_flat_zero (m : Model) (S : ℤ) (p : ProjectFrom)
    (g : Grid) (h : ProjectModelVertices m S p = some g) :
    (∀ i j : ℕ, 0 ≤ cellD g i j) ∧
    ((getDimensions m).axis p.GetAxisForProjection.2.2 = 0 →
      ∀ i j : ℕ, cellD g i j = 0) := by
  have hs := (ProjectModelVertices_spec h).2.2.2
  constructor
  · intro i j
    rw [hs i j]
    exact le_foldl_max_init _ 0
  · intro hv0 i j
    rw [hs i j, depthsAt_flat i j hv0]
    rfl

set_option maxRecDepth 100000 in
/-- C10 witness: a mesh flat along the depth axis of the side view (all x
coordinates 0) projects at resolution 2 to a grid whose cells (0,0) and
(1,2) are 0, and cell (0,0) is non-negative. -/
theorem projection_cells_nonneg_flat_zero_witness :
    (0 : ℚ) ≤ cellD ((ProjectModelVertices
        ⟨[], 1, [⟨(1, 0, 0), ((0, 0, 0), (0, 1, 1), (0, 2, 2)), 0⟩]⟩ 2
        ProjectFrom.side).getD []) 0 0 ∧
    cellD ((ProjectModelVertices
        ⟨[], 1, [⟨(1, 0, 0), ((0, 0, 0), (0, 1, 1), (0, 2, 2)), 0⟩]⟩ 2
        ProjectFrom.side).getD []) 1 2 = 0 :=
  ⟨(projection_cells_nonneg_flat_zero
      ⟨[], 1, [⟨(1, 0, 0), ((0, 0, 0), (0, 1, 1), (0, 2, 2)), 0⟩]⟩ 2
      ProjectFrom.side _ (by with_unfolding_all rfl)).1 0 0,
   (projection_cells_nonneg_flat_zero
      ⟨[], 1, [⟨(1, 0, 0), ((0, 0, 0), (0, 1, 1), (0, 2, 2)), 0⟩]⟩ 2
      ProjectFrom.side _ (by with_unfolding_all rfl)).2
      (by with_unfolding_all rfl) 1 2⟩
